import Mathlib

/-!
Shallow embedding of the OptiRota shortest-path / routing core
(`dijkstra.py`, `a_star.py`, `cost_matrix.py`, `vrp.py`,
`vehicle_allocation.py`, `datastructures.py`) and proofs about it.

Modelling conventions:
* Node ids are `ℕ`; Python `float` values are modelled by an ordered field
  `α` (`ℚ` for executable instances, `ℝ` where the haversine heuristic is
  involved).  `float('inf')` is modelled by `none` in `Option α`
  ("no finite value"); all finite values are `some x`.
* A networkx `MultiDiGraph` is modelled by `Graph`: an adjacency function
  mapping a node to its successor list, each successor carrying the list of
  parallel-edge attribute records (`EdgeData`).  Iteration order of Python
  dicts (insertion order) is the list order.
* The `heapq`-backed `filaPrioridade` of `datastructures.py` pushes
  `(priority, item)` pairs and pops the smallest pair in lexicographic
  order; it is modelled by a list of pairs whose `get` removes the
  lexicographically smallest pair, which is exactly the observable
  behaviour of a binary heap of tuples.
-/

/-- Attribute record of one directed (parallel) edge: the optional
`length` and `weight` attributes used by `edge_data.get('length',
edge_data.get('weight', ...))` in the Python sources. -/
structure EdgeData (α : Type) where
  length : Option α
  weight : Option α
deriving DecidableEq, Repr

/-- Optional geographic attributes of a node, as read by
`get_node_coordinates` in `a_star.py` (keys `y`/`x`, `lat`/`lon`,
`latitude`/`longitude`).  Coordinates are real-valued. -/
structure NodeData where
  y : Option ℝ := none
  x : Option ℝ := none
  lat : Option ℝ := none
  lon : Option ℝ := none
  latitude : Option ℝ := none
  longitude : Option ℝ := none

/-- A weighted directed multigraph as consumed by the search engines:
`nodes` is `graph.nodes()`, `adj n` is `graph.adj[n].items()` (successor,
list of parallel-edge records), `nodeData n` the node attribute dict. -/
structure Graph (α : Type) where
  nodes : List ℕ
  adj : ℕ → List (ℕ × List (EdgeData α))
  nodeData : ℕ → NodeData := fun _ => {}

/-- Membership test `graph.has_node(n)`. -/
def Graph.hasNode (G : Graph α) (n : ℕ) : Prop := n ∈ G.nodes

instance (G : Graph α) (n : ℕ) : Decidable (G.hasNode n) :=
  inferInstanceAs (Decidable (n ∈ G.nodes))

section Search

variable {α : Type} [LinearOrderedField α]

/-- Lexicographic strict order on `(priority, item)` pairs: the order in
which Python's `heapq` compares the tuples pushed by `filaPrioridade`. -/
def pairLt (p q : α × ℕ) : Prop := p.1 < q.1 ∨ (p.1 = q.1 ∧ p.2 < q.2)

instance (p q : α × ℕ) : Decidable (pairLt p q) := by
  unfold pairLt; infer_instance

/-- Smallest pair (lexicographically) of `best :: rest`; on ties the
earlier element is kept, which is indistinguishable since equal pairs are
identical. -/
def pqMin : (α × ℕ) → List (α × ℕ) → (α × ℕ)
  | best, [] => best
  | best, x :: xs => pqMin (if pairLt x best then x else best) xs

/-- Removal of the first occurrence of a pair from the queue. -/
def pqRemove : List (α × ℕ) → (α × ℕ) → List (α × ℕ)
  | [], _ => []
  | x :: xs, m => if x = m then xs else x :: pqRemove xs m

/-- Model of `filaPrioridade.get` preceded by the `is_empty` loop guard:
returns the popped minimum and the remaining queue, or `none` when the
queue is empty (the `while not priority_queue.is_empty()` exit). -/
def pqGet (pq : List (α × ℕ)) : Option ((α × ℕ) × List (α × ℕ)) :=
  match pq with
  | [] => none
  | x :: xs =>
    let m := pqMin x xs
    some (m, pqRemove (x :: xs) m)

/-- Comparison `w < b` where `b : Option α` stands for a `float` that may
be `inf` (`none`): a finite value is smaller than `inf`. -/
def ltInf (w : α) (b : Option α) : Prop :=
  match b with
  | none => True
  | some bv => w < bv

instance (w : α) (b : Option α) : Decidable (ltInf w b) := by
  unfold ltInf; cases b <;> infer_instance

/-- Attribute fallback `edge_data.get('length', edge_data.get('weight',
default))` for one parallel edge, with the default left to the caller
(`none` models a `float('inf')` default). -/
def edgeAttrWeight (e : EdgeData α) : Option α :=
  match e.length with
  | some l => some l
  | none => e.weight

/-- Loop of `find_path_dijkstra` / `find_path_a_star` computing the
minimum `length`-or-`weight` among the parallel edges to one neighbor
(`best_weight` starts at `float('inf')`, modelled `none`). -/
def bestWeight (es : List (EdgeData α)) : Option α :=
  es.foldl
    (fun b e =>
      match edgeAttrWeight e with
      | none => b
      | some w => if ltInf w b then some w else b)
    none

/-- Mutable search state of `find_path_dijkstra`: tentative distances
(`none` = `float('inf')`), predecessor map, visited set. -/
structure DState (α : Type) where
  dist : ℕ → Option α
  pred : ℕ → Option ℕ
  visited : List ℕ

/-- Relaxation of all outgoing edges of `current` (the multigraph branch
of `find_path_dijkstra`, lines 48-70): for each non-visited neighbor take
the best parallel weight, skip unusable edges, and push an improved
tentative distance. -/
def dijkstraRelax (current : ℕ) (dcur : α)
    (pairs : List (ℕ × List (EdgeData α))) :
    DState α → List (α × ℕ) → DState α × List (α × ℕ) :=
  fun st pq =>
    pairs.foldl
      (fun (acc : DState α × List (α × ℕ)) pr =>
        let (st, pq) := acc
        if pr.1 ∈ st.visited then (st, pq)
        else
          match bestWeight pr.2 with
          | none => (st, pq)
          | some w =>
            let nd := dcur + w
            if ltInf nd (st.dist pr.1) then
              ({ st with
                  dist := fun n => if n = pr.1 then some nd else st.dist n
                  pred := fun n => if n = pr.1 then some current else st.pred n },
                pq ++ [(nd, pr.1)])
            else (st, pq))
      (st, pq)

/-- Main loop of `find_path_dijkstra` (lines 31-87).  `fuel` bounds the
number of iterations; every actual run pops at most one queue entry per
push, so the fuel chosen by `find_path_dijkstra` is never exhausted.  The
guard `if current not in graph.adj` of the source can never fire because
adjacency is total here. -/
def dijkstraLoop (G : Graph α) (endN : ℕ) :
    ℕ → List (α × ℕ) → DState α → DState α
  | 0, _, st => st
  | fuel + 1, pq, st =>
    match pqGet pq with
    | none => st
    | some ((_, current), pq') =>
      if current ∈ st.visited then dijkstraLoop G endN fuel pq' st
      else
        let st' := { st with visited := current :: st.visited }
        if current = endN then st'
        else
          match st'.dist current with
          | none => dijkstraLoop G endN fuel pq' st'
          | some dcur =>
            let res := dijkstraRelax current dcur (G.adj current) st' pq'
            dijkstraLoop G endN fuel res.2 res.1

/-- Fuel budget used for the search loops: one initial push plus at most
one push per adjacency entry of every node ever expanded. -/
def searchFuel (G : Graph α) : ℕ :=
  1 + G.nodes.length + (G.nodes.map (fun n => (G.adj n).length)).sum

/-- Stack walk of `reconstruct_path`: push `current`, follow the
predecessor map until `None`.  The Python `while` loop has no bound; the
fuel passed by the callers covers every acyclic predecessor chain. -/
def predWalk (pred : ℕ → Option ℕ) : ℕ → ℕ → List ℕ
  | 0, _ => []
  | fuel + 1, cur =>
    cur :: (match pred cur with
            | none => []
            | some p => predWalk pred fuel p)

/-- Translation of `reconstruct_path` (`dijkstra.py` lines 95-123): empty
when the destination has no predecessor, otherwise the reversal (via the
`Pilha` stack) of the predecessor chain from `endN` back to `start`. -/
def reconstruct_path (pred : ℕ → Option ℕ) (start endN : ℕ) (fuel : ℕ) :
    List ℕ :=
  if pred endN = none ∧ start ≠ endN then []
  else (predWalk pred fuel endN).reverse

/-- Translation of `find_path_dijkstra` (`dijkstra.py` lines 11-93),
multigraph branch.  Distance `none` models `float('inf')`. -/
def find_path_dijkstra (G : Graph α) (start endN : ℕ) :
    List ℕ × Option α :=
  if start = endN then ([start], some 0)
  else if ¬G.hasNode start ∨ ¬G.hasNode endN then ([], none)
  else
    let st0 : DState α :=
      { dist := fun n => if n = start then some 0 else none
        pred := fun _ => none
        visited := [] }
    let final := dijkstraLoop G endN (searchFuel G) [(0, start)] st0
    match final.dist endN with
    | none => ([], none)
    | some d => (reconstruct_path final.pred start endN (G.nodes.length + 1), some d)

/-- Translation of `get_shortest_distance` (`dijkstra.py` lines 125-141). -/
def get_shortest_distance (G : Graph α) (start endN : ℕ) : Option α :=
  (find_path_dijkstra G start endN).2

/-- State of `get_all_shortest_distances`: no predecessors are kept. -/
structure AllDistState (α : Type) where
  dist : ℕ → Option α
  visited : List ℕ

/-- Relaxation step of `get_all_shortest_distances` (lines 174-187).  The
source calls `graph.get_edge_data(current, neighbor)`, which on a
multigraph returns the dict keyed by the integer edge keys; looking up the
string keys `'length'`/`'weight'` in it therefore always misses and the
default `1.0` is used whenever the edge dict is non-empty. -/
def allDistRelax (_current : ℕ) (dcur : α)
    (pairs : List (ℕ × List (EdgeData α))) :
    AllDistState α → List (α × ℕ) → AllDistState α × List (α × ℕ) :=
  fun st pq =>
    pairs.foldl
      (fun (acc : AllDistState α × List (α × ℕ)) pr =>
        let (st, pq) := acc
        if pr.1 ∈ st.visited then (st, pq)
        else if pr.2 = [] then (st, pq)
        else
          let nd := dcur + 1
          if ltInf nd (st.dist pr.1) then
            ({ st with dist := fun n => if n = pr.1 then some nd else st.dist n },
              pq ++ [(nd, pr.1)])
          else (st, pq))
      (st, pq)

/-- Main loop of `get_all_shortest_distances` (no destination, no early
exit). -/
def allDistLoop (G : Graph α) :
    ℕ → List (α × ℕ) → AllDistState α → AllDistState α
  | 0, _, st => st
  | fuel + 1, pq, st =>
    match pqGet pq with
    | none => st
    | some ((_, current), pq') =>
      if current ∈ st.visited then allDistLoop G fuel pq' st
      else
        let st' := { st with visited := current :: st.visited }
        match st'.dist current with
        | none => allDistLoop G fuel pq' st'
        | some dcur =>
          let res := allDistRelax current dcur (G.adj current) st' pq'
          allDistLoop G fuel res.2 res.1

/-- Translation of `get_all_shortest_distances` (`dijkstra.py` lines
143-189).  An absent start returns the empty dict, conflated here with
the all-`inf` map. -/
def get_all_shortest_distances (G : Graph α) (start : ℕ) :
    ℕ → Option α :=
  if ¬G.hasNode start then fun _ => none
  else
    let st0 : AllDistState α :=
      { dist := fun n => if n = start then some 0 else none, visited := [] }
    (allDistLoop G (searchFuel G) [(0, start)] st0).dist

end Search

/-! Concrete graphs used by the scenario claims. -/

/-- Scenario graph of the spec: directed edges 0→1 (length 10),
1→2 (length 5), 2→3 (length 8), 0→3 (length 25); no coordinates.
Polymorphic in the weight field so that it can be used both executably
(`ℚ`) and next to the real-valued heuristic (`ℝ`). -/
def scenGraph (α : Type) [LinearOrderedField α] : Graph α where
  nodes := [0, 1, 2, 3]
  adj := fun n =>
    if n = 0 then [(1, [⟨some 10, none⟩]), (3, [⟨some 25, none⟩])]
    else if n = 1 then [(2, [⟨some 5, none⟩])]
    else if n = 2 then [(3, [⟨some 8, none⟩])]
    else []

/-- Multigraph with two parallel edges 0→1 of lengths 5 and 3. -/
def parGraph : Graph ℚ where
  nodes := [0, 1]
  adj := fun n => if n = 0 then [(1, [⟨some 5, none⟩, ⟨some 3, none⟩])] else []

/-! Translation of `a_star.py`. -/

/-- Translation of `haversine_distance` (`a_star.py` lines 13-38):
great-circle distance between two points given in degrees, on a sphere of
radius 6371 km, returned in meters.  `math.radians x = x * π / 180`. -/
noncomputable def haversine_distance (lat1 lon1 lat2 lon2 : ℝ) : ℝ :=
  let R : ℝ := 6371.0
  let lat1_rad := lat1 * Real.pi / 180
  let lon1_rad := lon1 * Real.pi / 180
  let lat2_rad := lat2 * Real.pi / 180
  let lon2_rad := lon2 * Real.pi / 180
  let dlat := lat2_rad - lat1_rad
  let dlon := lon2_rad - lon1_rad
  let a := Real.sin (dlat / 2) ^ 2 +
    Real.cos lat1_rad * Real.cos lat2_rad * Real.sin (dlon / 2) ^ 2
  let c := 2 * Real.arcsin (Real.sqrt a)
  (R * c) * 1000.0

/-- Translation of `get_node_coordinates` (`a_star.py` lines 40-60):
tries the attribute pairs `y`/`x`, `lat`/`lon`, `latitude`/`longitude` in
order and falls back to `(0.0, 0.0)` when none is present. -/
def get_node_coordinates (G : Graph α) (node : ℕ) : ℝ × ℝ :=
  let d := G.nodeData node
  if d.y.isSome ∧ d.x.isSome then (d.y.getD 0, d.x.getD 0)
  else if d.lat.isSome ∧ d.lon.isSome then (d.lat.getD 0, d.lon.getD 0)
  else if d.latitude.isSome ∧ d.longitude.isSome then
    (d.latitude.getD 0, d.longitude.getD 0)
  else (0.0, 0.0)

/-- Translation of `calculate_heuristic` (`a_star.py` lines 62-79).  The
`except (KeyError, TypeError)` branch returning `0.0` cannot fire in this
model because `get_node_coordinates` is total. -/
noncomputable def calculate_heuristic (G : Graph α) (current goal : ℕ) : ℝ :=
  let c1 := get_node_coordinates G current
  let c2 := get_node_coordinates G goal
  haversine_distance c1.1 c1.2 c2.1 c2.2

/-- Mutable search state of `find_path_a_star`: `g_score`, `f_score`
(`none` = `float('inf')`), predecessor map, visited set. -/
structure AState where
  g : ℕ → Option ℝ
  f : ℕ → Option ℝ
  pred : ℕ → Option ℕ
  visited : List ℕ

/-- Relaxation of all outgoing edges of `current` in `find_path_a_star`
(lines 131-155): identical to the Dijkstra relaxation except that the
pushed priority is `f = g + h`. -/
noncomputable def aStarRelax (G : Graph ℝ) (endN current : ℕ) (gcur : ℝ)
    (pairs : List (ℕ × List (EdgeData ℝ))) :
    AState → List (ℝ × ℕ) → AState × List (ℝ × ℕ) :=
  fun st pq =>
    pairs.foldl
      (fun (acc : AState × List (ℝ × ℕ)) pr =>
        let (st, pq) := acc
        if pr.1 ∈ st.visited then (st, pq)
        else
          match bestWeight pr.2 with
          | none => (st, pq)
          | some w =>
            let tg := gcur + w
            if ltInf tg (st.g pr.1) then
              let nf := tg + calculate_heuristic G pr.1 endN
              ({ st with
                  g := fun n => if n = pr.1 then some tg else st.g n
                  f := fun n => if n = pr.1 then some nf else st.f n
                  pred := fun n => if n = pr.1 then some current else st.pred n },
                pq ++ [(nf, pr.1)])
            else (st, pq))
      (st, pq)

/-- Main loop of `find_path_a_star` (lines 114-155), same shape as
`dijkstraLoop`. -/
noncomputable def aStarLoop (G : Graph ℝ) (endN : ℕ) :
    ℕ → List (ℝ × ℕ) → AState → AState
  | 0, _, st => st
  | fuel + 1, pq, st =>
    match pqGet pq with
    | none => st
    | some ((_, current), pq') =>
      if current ∈ st.visited then aStarLoop G endN fuel pq' st
      else
        let st' := { st with visited := current :: st.visited }
        if current = endN then st'
        else
          match st'.g current with
          | none => aStarLoop G endN fuel pq' st'
          | some gcur =>
            let res := aStarRelax G endN current gcur (G.adj current) st' pq'
            aStarLoop G endN fuel res.2 res.1

/-- Translation of `find_path_a_star` (`a_star.py` lines 82-161). -/
noncomputable def find_path_a_star (G : Graph ℝ) (start endN : ℕ) :
    List ℕ × Option ℝ :=
  if start = endN then ([start], some 0)
  else if ¬G.hasNode start ∨ ¬G.hasNode endN then ([], none)
  else
    let h0 := calculate_heuristic G start endN
    let st0 : AState :=
      { g := fun n => if n = start then some 0 else none
        f := fun n => if n = start then some h0 else none
        pred := fun _ => none
        visited := [] }
    let final := aStarLoop G endN (searchFuel G) [(h0, start)] st0
    match final.g endN with
    | none => ([], none)
    | some d => (reconstruct_path final.pred start endN (G.nodes.length + 1), some d)

/-- Translation of `get_shortest_distance_a_star` (`a_star.py` lines
194-210). -/
noncomputable def get_shortest_distance_a_star (G : Graph ℝ) (start endN : ℕ) :
    Option ℝ :=
  (find_path_a_star G start endN).2

/-- Counterexample graph for the heuristic claims: node 0 at (0°, 0°),
node 1 without coordinates, node 2 at (0°, 90°); edges 0→1 and 1→2 of
length 1, and 0→2 of length 5. -/
def cexGraph : Graph ℝ where
  nodes := [0, 1, 2]
  adj := fun n =>
    if n = 0 then [(1, [⟨some 1, none⟩]), (2, [⟨some 5, none⟩])]
    else if n = 1 then [(2, [⟨some 1, none⟩])]
    else []
  nodeData := fun n =>
    if n = 0 then { y := some 0, x := some 0 }
    else if n = 2 then { y := some 0, x := some 90 }
    else {}


/-- Projection of an A* state onto the Dijkstra state it simulates:
`g_score` plays the role of `distances` and `f_score` is dropped. -/
def AState.toD (a : AState) : DState ℝ :=
  { dist := a.g, pred := a.pred, visited := a.visited }

section GraphPreds

variable {α : Type} [LinearOrderedField α]

/-- One usable relaxation step: `v` is adjacent to `u` through at least
one parallel edge whose best weight is finite (edges with no usable
weight are skipped by the engines). -/
def edgeStep (G : Graph α) (u v : ℕ) : Prop :=
  ∃ pr ∈ G.adj u, pr.1 = v ∧ bestWeight pr.2 ≠ none

/-- Reachability along usable edges; "a connecting path exists" in the
sense of the search engines. -/
def Reach (G : Graph α) (s v : ℕ) : Prop :=
  Relation.ReflTransGen (edgeStep G) s v

/-- Well-formedness from the spec data model: every `length` and `weight`
attribute in the graph is non-negative. -/
def nonnegWeights (G : Graph α) : Prop :=
  ∀ u, ∀ pr ∈ G.adj u, ∀ e ∈ pr.2,
    (∀ x, e.length = some x → 0 ≤ x) ∧ (∀ x, e.weight = some x → 0 ≤ x)

end GraphPreds

/-! Translation of `cost_matrix.py`. -/

/-- Result dict of `compute_cost_matrix`: the numpy matrix (cells are
`none` = `np.inf`), the node→index mapping, the de-duplicated node list
and, when requested, the realized paths. -/
structure CostMatrix where
  matrix : List (List (Option ℝ))
  node_index : List (ℕ × ℕ)
  nodes : List ℕ
  paths : List ((ℕ × ℕ) × List ℕ) := []

/-- De-duplication preserving first-occurrence order:
`list(dict.fromkeys(nodes))`. -/
def dedupFirst (l : List ℕ) : List ℕ :=
  l.foldl (fun acc n => if n ∈ acc then acc else acc ++ [n]) []

/-- Dictionary lookup in the node→index mapping. -/
def idxLookup (idx : List (ℕ × ℕ)) (n : ℕ) : Option ℕ :=
  (idx.find? (fun p => p.1 == n)).map Prod.snd

/-- The `np.full((n, n), np.inf)` matrix with `np.fill_diagonal(..., 0.0)`. -/
def initMatrix (n : ℕ) : List (List (Option ℝ)) :=
  (List.range n).map (fun i =>
    (List.range n).map (fun j => if i = j then some (0:ℝ) else none))

/-- Write of `cost_matrix[i, j] = v` (out-of-range writes cannot occur in
the source; they are no-ops here). -/
def setCell : List (List (Option ℝ)) → ℕ → ℕ → Option ℝ → List (List (Option ℝ))
  | [], _, _, _ => []
  | row :: rest, 0, j, v => row.set j v :: rest
  | row :: rest, i + 1, j, v => row :: setCell rest i j v

/-- Read of `cost_matrix[i, j]`. -/
def getCell (M : List (List (Option ℝ))) (i j : ℕ) : Option ℝ :=
  (M.getD i []).getD j none

/-- Body of the inner pair loop of `compute_cost_matrix` (lines 53-71):
skip the diagonal, call the chosen engine inside `try`, store the result
only when a path exists / the distance is finite; an exception (`none`
from the search oracle) is caught and the cell left untouched. -/
noncomputable def costPairStep (use_paths : Bool)
    (searchP : ℕ → ℕ → Option (List ℕ × Option ℝ))
    (searchD : ℕ → ℕ → Option (Option ℝ))
    (acc : List (List (Option ℝ)) × List ((ℕ × ℕ) × List ℕ))
    (i source j target : ℕ) :
    List (List (Option ℝ)) × List ((ℕ × ℕ) × List ℕ) :=
  if i = j then acc
  else if use_paths then
    match searchP source target with
    | none => acc
    | some pd =>
      if pd.1 ≠ [] then
        (setCell acc.1 i j pd.2, acc.2 ++ [((source, target), pd.1)])
      else acc
  else
    match searchD source target with
    | none => acc
    | some distance =>
      if distance ≠ none then (setCell acc.1 i j distance, acc.2) else acc

/-- The double loop of `compute_cost_matrix` over
`enumerate(unique_nodes)`. -/
noncomputable def costLoop (use_paths : Bool)
    (searchP : ℕ → ℕ → Option (List ℕ × Option ℝ))
    (searchD : ℕ → ℕ → Option (Option ℝ))
    (unique : List ℕ) :
    List (List (Option ℝ)) × List ((ℕ × ℕ) × List ℕ) :=
  unique.enum.foldl
    (fun acc p =>
      unique.enum.foldl
        (fun acc2 q => costPairStep use_paths searchP searchD acc2 p.1 p.2 q.1 q.2)
        acc)
    (initMatrix unique.length, [])

/-- Python's `str.lower`, stated structurally over the character list so
that it evaluates. -/
def strLower (s : String) : String := ⟨s.data.map Char.toLower⟩

/-- Translation of `compute_cost_matrix` (`cost_matrix.py` lines 12-82).
The per-pair engine calls are wrapped in `some`; a raised exception would
be `none` (the pure engines of this model never raise, but the loop is
stated over arbitrary oracles to reason about the caught-failure path).
`ValueError` for an unsupported algorithm is the `Except.error` case. -/
noncomputable def compute_cost_matrix (G : Graph ℝ) (nodes : List ℕ)
    (algorithm : String) (use_paths : Bool) : Except String CostMatrix :=
  if nodes = [] then
    .ok { matrix := [], node_index := [], nodes := [], paths := [] }
  else
    let unique := dedupFirst nodes
    let node_index := unique.enum.map (fun p => (p.2, p.1))
    if strLower algorithm = "a_star" then
      let res := costLoop use_paths
        (fun s t => some (find_path_a_star G s t))
        (fun s t => some (get_shortest_distance_a_star G s t)) unique
      .ok { matrix := res.1, node_index := node_index, nodes := unique,
            paths := if use_paths then res.2 else [] }
    else if strLower algorithm = "dijkstra" then
      let res := costLoop use_paths
        (fun s t => some (find_path_dijkstra G s t))
        (fun s t => some (get_shortest_distance G s t)) unique
      .ok { matrix := res.1, node_index := node_index, nodes := unique,
            paths := if use_paths then res.2 else [] }
    else .error "unsupported algorithm"

/-- Translation of `get_cost_between_nodes` (`cost_matrix.py` lines
139-161): O(1) lookup, `float('inf')` when either id is absent from the
index. -/
def get_cost_between_nodes (matrix : List (List (Option ℝ)))
    (node_index : List (ℕ × ℕ)) (source target : ℕ) : Option ℝ :=
  match idxLookup node_index source, idxLookup node_index target with
  | some i, some j => getCell matrix i j
  | _, _ => none

/-- Inner pair loop of `compute_cost_matrix` for one fixed row. -/
noncomputable def innerFold (use_paths : Bool)
    (searchP : ℕ → ℕ → Option (List ℕ × Option ℝ))
    (searchD : ℕ → ℕ → Option (Option ℝ))
    (targets : List (ℕ × ℕ)) (i source : ℕ)
    (acc : List (List (Option ℝ)) × List ((ℕ × ℕ) × List ℕ)) :
    List (List (Option ℝ)) × List ((ℕ × ℕ) × List ℕ) :=
  targets.foldl
    (fun acc2 q => costPairStep use_paths searchP searchD acc2 i source q.1 q.2)
    acc

/-- Outer row loop of `compute_cost_matrix`. -/
noncomputable def outerFold (use_paths : Bool)
    (searchP : ℕ → ℕ → Option (List ℕ × Option ℝ))
    (searchD : ℕ → ℕ → Option (Option ℝ))
    (targets rows : List (ℕ × ℕ))
    (acc : List (List (Option ℝ)) × List ((ℕ × ℕ) × List ℕ)) :
    List (List (Option ℝ)) × List ((ℕ × ℕ) × List ℕ) :=
  rows.foldl
    (fun acc p => innerFold use_paths searchP searchD targets p.1 p.2 acc)
    acc

/-- Value written by one successful pair computation, as a function of the
previous cell value. -/
noncomputable def pairVal (use_paths : Bool)
    (searchP : ℕ → ℕ → Option (List ℕ × Option ℝ))
    (searchD : ℕ → ℕ → Option (Option ℝ))
    (source target : ℕ) (old : Option ℝ) : Option ℝ :=
  if use_paths then
    match searchP source target with
    | none => old
    | some pd => if pd.1 ≠ [] then pd.2 else old
  else
    match searchD source target with
    | none => old
    | some distance => if distance ≠ none then distance else old

/-- Shape predicate: an `n × n` matrix. -/
def MatShape (M : List (List (Option ℝ))) (n : ℕ) : Prop :=
  M.length = n ∧ ∀ r ∈ M, r.length = n

/-! Translation of `vrp.py`. -/

section VRP

variable {α : Type} [LinearOrderedField α]

/-- Translation of the `DeliveryRequest` dataclass (`vrp.py` lines 9-20).
The time-window fields are omitted: no modelled operation reads them. -/
structure DeliveryRequest (α : Type) [LinearOrderedField α] where
  id : ℕ
  pickup_location : α × α
  delivery_location : α × α
  pickup_node : Option ℕ := none
  delivery_node : Option ℕ := none
  weight : α := 1
  priority : ℤ := 1
deriving DecidableEq

/-- Translation of the `Vehicle` dataclass (`vrp.py` lines 22-31). -/
structure Vehicle (α : Type) [LinearOrderedField α] where
  id : ℕ
  capacity : α
  current_load : α := 0
  current_location : α × α := (0, 0)
  current_node : Option ℕ := none
  max_distance : Option α := none
  fuel_level : α := 100
deriving DecidableEq

/-- Translation of the `Route` dataclass (`vrp.py` lines 33-40). -/
structure Route (α : Type) [LinearOrderedField α] where
  vehicle_id : ℕ
  deliveries : List (DeliveryRequest α)
  total_distance : α := 0
  total_time : α := 0
  is_feasible : Bool := true
deriving DecidableEq

/-- Outcome of a call to the external `networkx`
`shortest_path`/`shortest_path_length` collaborator: a finite length, a
`NetworkXNoPath` error, or any other exception (e.g. `NodeNotFound`). -/
inductive NXRes (α : Type) where
  | found (d : α)
  | noPath
  | err
deriving DecidableEq

/-- Translation of `NearestNeighborVRP._find_nearest_delivery` (`vrp.py`
lines 148-186): among the deliveries whose weight fits the remaining
capacity, pick the one with the smallest shortest-path distance from
`current` to its delivery node; `nx.shortest_path_length` answers first
(divided by 1000), `find_path_dijkstra` is the fallback on
`NetworkXNoPath`; any other failure skips the delivery.  A `None`
delivery node fails the `has_node` guard, as in the source. -/
def find_nearest_delivery (G : Graph α) (nxsp : ℕ → ℕ → NXRes α)
    (current : ℕ) (deliveries : List (DeliveryRequest α))
    (remaining_capacity : α) : Option (DeliveryRequest α) :=
  let valid := deliveries.filter (fun d => decide (d.weight ≤ remaining_capacity))
  if valid = [] then none
  else
    (valid.foldl
      (fun (acc : Option (DeliveryRequest α) × Option α) d =>
        match d.delivery_node with
        | none => acc
        | some dn =>
          if ¬G.hasNode current ∨ ¬G.hasNode dn then acc
          else
            let dist : Option α :=
              match nxsp current dn with
              | .found q => some (q / 1000)
              | .noPath =>
                match (find_path_dijkstra G current dn).2 with
                | none => none
                | some q => some (q / 1000)
              | .err => none
            match dist with
            | none => acc
            | some dv =>
              if ltInf dv acc.2 then (some d, some dv) else acc)
      (none, none)).1

/-- The `while` loop of `_build_route_nearest_neighbor` (`vrp.py` lines
108-131).  State: remaining candidates, current node, current load,
accumulated distance, assigned deliveries.  Each productive iteration
removes one delivery, so `fuel = deliveries.length` suffices; the
capacity re-check always succeeds (the candidate was filtered by weight)
but is kept, mirroring the source. -/
def buildRouteLoop (G : Graph α) (nxsp : ℕ → ℕ → NXRes α)
    (vehicle : Vehicle α) :
    ℕ → List (DeliveryRequest α) → ℕ → α → α → List (DeliveryRequest α) →
    List (DeliveryRequest α) × ℕ × α
  | 0, _, current, _, total, route => (route, current, total)
  | fuel + 1, available, current, load, total, route =>
    if available = [] ∨ ¬(load < vehicle.capacity) then (route, current, total)
    else
      match find_nearest_delivery G nxsp current available
        (vehicle.capacity - load) with
      | none => (route, current, total)
      | some nearest =>
        if load + nearest.weight ≤ vehicle.capacity then
          match nearest.pickup_node, nearest.delivery_node with
          | some pn, some dn =>
            match nxsp current pn, nxsp pn dn with
            | .found dp, .found dd =>
              buildRouteLoop G nxsp vehicle fuel (available.erase nearest)
                dn (load + nearest.weight) (total + dp / 1000 + dd / 1000)
                (route ++ [nearest])
            | _, _ =>
              buildRouteLoop G nxsp vehicle fuel (available.erase nearest)
                current load total route
          | _, _ =>
            buildRouteLoop G nxsp vehicle fuel (available.erase nearest)
              current load total route
        else
          buildRouteLoop G nxsp vehicle fuel available current load total route

/-- Translation of `_build_route_nearest_neighbor` (`vrp.py` lines
97-146), including the best-effort return-to-depot leg. -/
def build_route_nearest_neighbor (G : Graph α) (nxsp : ℕ → ℕ → NXRes α)
    (depot_node : ℕ) (vehicle : Vehicle α)
    (deliveries : List (DeliveryRequest α)) : Route α :=
  let res := buildRouteLoop G nxsp vehicle deliveries.length deliveries
    depot_node 0 0 []
  let total :=
    if res.1 ≠ [] ∧ res.2.1 ≠ depot_node then
      match nxsp res.2.1 depot_node with
      | .found r => res.2.2 + r / 1000
      | _ => res.2.2
    else res.2.2
  { vehicle_id := vehicle.id
    deliveries := res.1
    total_distance := total
    total_time := 0
    is_feasible := decide (res.1.length > 0) }

/-- The fleet loop of `NearestNeighborVRP.solve` (`vrp.py` lines 71-85):
build one route per vehicle in order, keep non-empty routes, and remove
their deliveries from the unassigned pool. -/
def nnSolveLoop (G : Graph α) (nxsp : ℕ → ℕ → NXRes α) (depot_node : ℕ) :
    List (Vehicle α) → List (DeliveryRequest α) → List (Route α) →
    List (Route α) × List (DeliveryRequest α)
  | [], remaining, routes => (routes, remaining)
  | v :: vs, remaining, routes =>
    if remaining = [] then (routes, remaining)
    else
      let route := build_route_nearest_neighbor G nxsp depot_node v remaining
      if route.deliveries ≠ [] then
        nnSolveLoop G nxsp depot_node vs
          (route.deliveries.foldl (fun rem d => rem.erase d) remaining)
          (routes ++ [route])
      else nnSolveLoop G nxsp depot_node vs remaining routes

/-- Translation of `NearestNeighborVRP.solve` (`vrp.py` lines 61-85),
with the depot node already resolved by the caller. -/
def nearest_neighbor_solve (G : Graph α) (nxsp : ℕ → ℕ → NXRes α)
    (vehicles : List (Vehicle α)) (deliveries : List (DeliveryRequest α))
    (depot_node : ℕ) : List (Route α) :=
  (nnSolveLoop G nxsp depot_node vehicles deliveries []).1

/-- Translation of `VRPManager._validate_routes` (`vrp.py` lines
294-305): look up the first vehicle with the route's id (`next(...)`) and
clear the feasibility flag when it is missing or the total assigned
weight exceeds its capacity. -/
def validate_routes (routes : List (Route α)) (vehicles : List (Vehicle α)) :
    List (Route α) :=
  routes.map (fun r =>
    match vehicles.find? (fun v => v.id == r.vehicle_id) with
    | none => { r with is_feasible := false }
    | some v =>
      if (r.deliveries.map (fun d => d.weight)).sum > v.capacity then
        { r with is_feasible := false }
      else r)

/-- Translation of `VRPManager._map_locations_to_nodes` (`vrp.py` lines
264-292): resolve pickup/delivery/depot coordinates to nodes through the
external `get_closest_node` collaborator. -/
def map_locations_to_nodes (closest : α × α → ℕ)
    (deliveries : List (DeliveryRequest α)) (depot_location : α × α) :
    List (DeliveryRequest α) × ℕ :=
  (deliveries.map (fun d =>
      { d with pickup_node := some (closest d.pickup_location)
               delivery_node := some (closest d.delivery_location) }),
    closest depot_location)

/-- Translation of `VRPManager.solve_vrp` (`vrp.py` lines 221-243).
`ValueError` became `Except.error`; the genetic-algorithm variant is the
stub returning no routes; `_validate_inputs`' depot check can never fail
(a coordinate tuple is always truthy). -/
def solve_vrp (G : Graph α) (closest : α × α → ℕ)
    (nxsp : ℕ → ℕ → NXRes α) (vehicles : List (Vehicle α))
    (deliveries : List (DeliveryRequest α)) (depot_location : α × α)
    (algorithm : String) : Except String (List (Route α)) :=
  if algorithm ≠ "nearest_neighbor" ∧ algorithm ≠ "genetic_algorithm" then
    .error "unsupported algorithm"
  else if vehicles = [] ∨ deliveries = [] then .error "invalid inputs"
  else
    let md := map_locations_to_nodes closest deliveries depot_location
    let routes :=
      if algorithm = "nearest_neighbor" then
        nearest_neighbor_solve G nxsp vehicles md.1 md.2
      else []
    .ok (validate_routes routes vehicles)


end VRP

/-! Translation of `vehicle_allocation.py`. -/

/-- Translation of the `Client` dataclass (`vehicle_allocation.py` lines
12-23).  Unread fields (service time, time windows, special
requirements) are omitted. -/
structure Client where
  id : ℕ
  name : String
  location : ℝ × ℝ
  node_id : Option ℕ := none
  priority : ℤ := 1

/-- Translation of the `AllocationRequest` dataclass (lines 25-33);
`max_wait_time` and `created_at` are unread by the modelled operations. -/
structure AllocationRequest where
  id : ℕ
  client : Client
  delivery_request : DeliveryRequest ℝ
  requested_vehicle_type : Option String := none

/-- Translation of the `VehicleAllocation` dataclass (lines 35-45).  The
Python object holds a reference to the shared `Vehicle`; that aliasing is
modelled by storing the vehicle id and routing every load update through
the manager's vehicle dictionary.  Unread timing/route fields omitted. -/
structure VehicleAllocation where
  vehicle_id : ℕ
  client : Client
  allocation_request : AllocationRequest
  status : String := "pending"

/-- State of a `VehicleAllocationManager` (lines 58-68): the graph, the
optional precomputed cost-matrix dict, and the id-keyed vehicle and
allocation dictionaries (insertion-ordered). -/
structure AllocManager where
  graph : Graph ℝ
  cost_matrix : Option CostMatrix := none
  vehicles : List (ℕ × Vehicle ℝ) := []
  allocations : List (ℕ × VehicleAllocation) := []

/-- Translation of `calculate_allocation_cost` (lines 151-172): the base
distance comes from the cost matrix when one was supplied (a non-empty
dict, hence truthy), else from a direct A* distance query; an id that is
`None` misses the index / fails `has_node`, giving `float('inf')`.  The
priority surcharge is `(4 - priority) * 0.1 * cost`.  A non-finite base
cost is collapsed to `none` (for an infinite float cost Python would
return `inf`, or NaN in the degenerate `priority = 4` corner; neither is
finite, which is all the proofs below rely on). -/
noncomputable def calculate_allocation_cost (mgr : AllocManager)
    (vehicle : Vehicle ℝ) (request : AllocationRequest) : Option ℝ :=
  let cost : Option ℝ :=
    match mgr.cost_matrix with
    | some cm =>
      match vehicle.current_node, request.client.node_id with
      | some vn, some cn => get_cost_between_nodes cm.matrix cm.node_index vn cn
      | _, _ => none
    | none =>
      match vehicle.current_node, request.client.node_id with
      | some vn, some cn => get_shortest_distance_a_star mgr.graph vn cn
      | _, _ => none
  match cost with
  | none => none
  | some c => some (c + (4 - (request.client.priority : ℝ)) * 0.1 * c)

/-- Translation of `_has_time_conflict` (lines 144-149): the stub always
reports no conflict. -/
def has_time_conflict (_existing : VehicleAllocation)
    (_request : AllocationRequest) : Bool := false

/-- Translation of `_is_vehicle_available` (lines 122-142).  The
`requested_vehicle_type` check is dead code: the `Vehicle` dataclass has
no `type` attribute, so `hasattr(vehicle, 'type')` is always false. -/
noncomputable def is_vehicle_available (mgr : AllocManager)
    (vehicle : Vehicle ℝ) (request : AllocationRequest) : Bool :=
  if vehicle.current_load + request.delivery_request.weight
      > vehicle.capacity then false
  else
    let vehicle_allocations := mgr.allocations.filter (fun p =>
      p.2.vehicle_id == vehicle.id &&
        (p.2.status == "confirmed" || p.2.status == "in_progress"))
    if vehicle_allocations.any (fun p => has_time_conflict p.2 request) then
      false
    else true

/-- Translation of `find_available_vehicles` (lines 107-120). -/
noncomputable def find_available_vehicles (mgr : AllocManager)
    (request : AllocationRequest) : List (Vehicle ℝ) :=
  (mgr.vehicles.map Prod.snd).filter
    (fun v => is_vehicle_available mgr v request)

/-- Python's `min(available, key=cost)`: scan left to right, replacing
the best only on a strictly smaller key, so the first minimum wins.
`none` stands for an infinite float key. -/
def ltOptCost (a b : Option ℝ) : Prop :=
  match a, b with
  | none, _ => False
  | some _, none => True
  | some x, some y => x < y

noncomputable instance (a b : Option ℝ) : Decidable (ltOptCost a b) := by
  unfold ltOptCost; cases a <;> cases b <;> infer_instance

noncomputable def minByCost (mgr : AllocManager) (request : AllocationRequest) :
    Vehicle ℝ → List (Vehicle ℝ) → Vehicle ℝ
  | best, [] => best
  | best, v :: vs =>
    minByCost mgr request
      (if ltOptCost (calculate_allocation_cost mgr v request)
          (calculate_allocation_cost mgr best request) then v else best) vs

/-- Translation of `allocate_vehicle_greedy` (lines 174-202): pick the
cheapest available vehicle, add the request weight to its load, and
record the allocation under id `len(allocations) + 1`. -/
noncomputable def allocate_vehicle_greedy (mgr : AllocManager)
    (request : AllocationRequest) : Option VehicleAllocation × AllocManager :=
  match find_available_vehicles mgr request with
  | [] => (none, mgr)
  | v0 :: rest =>
    let best := minByCost mgr request v0 rest
    let alloc : VehicleAllocation :=
      { vehicle_id := best.id, client := request.client,
        allocation_request := request, status := "pending" }
    let vehicles' := mgr.vehicles.map (fun p =>
      if p.1 = best.id then
        (p.1, { p.2 with current_load :=
          p.2.current_load + request.delivery_request.weight })
      else p)
    (some alloc,
      { mgr with vehicles := vehicles'
                 allocations := mgr.allocations ++
                   [(mgr.allocations.length + 1, alloc)] })

/-- Translation of `cancel_allocation` (lines 277-288): subtract the
request's weight from the allocation's vehicle and mark the allocation
cancelled.  The entry stays in the dictionary and the status is not
checked before subtracting. -/
noncomputable def cancel_allocation (mgr : AllocManager)
    (allocation_id : ℕ) : Bool × AllocManager :=
  match mgr.allocations.find? (fun p => p.1 == allocation_id) with
  | none => (false, mgr)
  | some pa =>
    let w := pa.2.allocation_request.delivery_request.weight
    let vehicles' := mgr.vehicles.map (fun p =>
      if p.1 = pa.2.vehicle_id then
        (p.1, { p.2 with current_load := p.2.current_load - w })
      else p)
    let allocations' := mgr.allocations.map (fun p =>
      if p.1 = allocation_id then (p.1, { p.2 with status := "cancelled" })
      else p)
    (true, { mgr with vehicles := vehicles', allocations := allocations' })

/-- One manager operation of the kind the implicit-invariant claim talks
about. -/
inductive AllocOp where
  | alloc (request : AllocationRequest)
  | cancel (allocation_id : ℕ)

/-- Sequential execution of manager operations. -/
noncomputable def runAllocOps (mgr : AllocManager) : List AllocOp → AllocManager
  | [] => mgr
  | .alloc r :: ops => runAllocOps (allocate_vehicle_greedy mgr r).2 ops
  | .cancel i :: ops => runAllocOps (cancel_allocation mgr i).2 ops

/-- The cancellation ids of an operation sequence. -/
def cancelIds (ops : List AllocOp) : List ℕ :=
  ops.filterMap (fun op =>
    match op with
    | .cancel i => some i
    | _ => none)

/-- Empty graph over real weights. -/
def emptyGraphR : Graph ℝ := { nodes := [], adj := fun _ => [] }

/-- A minimal supplied cost-matrix dict: one node `0` at index `0`. -/
def trivialCostMatrix : CostMatrix :=
  { matrix := [[some 0]], node_index := [(0, 0)], nodes := [0] }

/-- Client resolved to node 0, priority 1. -/
def cexClient : Client :=
  { id := 1, name := "c", location := (0, 0), node_id := some 0 }

/-- A delivery of weight 5. -/
noncomputable def cexDeliveryR : DeliveryRequest ℝ :=
  { id := 1, pickup_location := (0, 0), delivery_location := (0, 0),
    weight := 5 }

/-- Allocation request pairing the client with the weight-5 delivery. -/
noncomputable def cexRequest : AllocationRequest :=
  { id := 1, client := cexClient, delivery_request := cexDeliveryR }

/-- One vehicle of capacity 10 with empty load, at node 0. -/
noncomputable def cexVehicleR : Vehicle ℝ :=
  { id := 1, capacity := 10, current_node := some 0 }

/-- Manager with that one vehicle, a supplied cost matrix and no
allocations. -/
noncomputable def cexAllocMgr : AllocManager :=
  { graph := emptyGraphR, cost_matrix := some trivialCostMatrix,
    vehicles := [(1, cexVehicleR)] }

/-- Total weight of the non-cancelled allocations of one vehicle; the
witness quantity showing that a load never drops below zero as long as
each allocation is cancelled at most once. -/
noncomputable def activeSum (allocs : List (ℕ × VehicleAllocation))
    (vid : ℕ) : ℝ :=
  ((allocs.filter (fun q =>
      q.2.vehicle_id == vid && !(q.2.status == "cancelled"))).map
    (fun q => q.2.allocation_request.delivery_request.weight)).sum

/-- State well-formedness of a `VehicleAllocationManager`: id-keyed
dictionaries, allocation ids `1..n`, non-negative allocation weights and,
per vehicle, a load within capacity dominating the total weight of its
non-cancelled allocations. -/
def MgrInv (mgr : AllocManager) : Prop :=
  (mgr.vehicles.map Prod.fst).Nodup ∧
  (∀ p ∈ mgr.vehicles, p.1 = p.2.id) ∧
  (∀ q ∈ mgr.allocations, q.1 ≤ mgr.allocations.length) ∧
  (mgr.allocations.map Prod.fst).Nodup ∧
  (∀ q ∈ mgr.allocations, 0 ≤ q.2.allocation_request.delivery_request.weight) ∧
  (∀ p ∈ mgr.vehicles, p.2.current_load ≤ p.2.capacity ∧
    activeSum mgr.allocations p.1 ≤ p.2.current_load)

/-- Absence of every coordinate attribute on a node's data dict: the
situation in which `get_node_coordinates` falls back to `(0.0, 0.0)`. -/
def noCoordAttrs (d : NodeData) : Prop :=
  d.y = none ∧ d.x = none ∧ d.lat = none ∧ d.lon = none ∧
    d.latitude = none ∧ d.longitude = none

/-- Specification-side allocation cost:
`distance + (4 − priority) × 0.1 × distance` (spec section 4.6), to be
compared with `calculate_allocation_cost`. -/
noncomputable def spec_allocation_cost (distance : ℝ) (priority : ℤ) : ℝ :=
  distance + (4 - (priority : ℝ)) * 0.1 * distance

/-- One rational-weight vehicle of capacity 10 for the VRP scenario. -/
def vQ : Vehicle ℚ := { id := 1, capacity := 10 }

/-- One delivery of weight 5 with unresolved nodes. -/
def dQ : DeliveryRequest ℚ :=
  { id := 1, pickup_location := (0, 0), delivery_location := (0, 0),
    weight := 5 }

/-- The same delivery after `_map_locations_to_nodes` resolved both
locations to node 0. -/
def dQmapped : DeliveryRequest ℚ :=
  { dQ with pickup_node := some 0, delivery_node := some 0 }

/-- The route the nearest-neighbor solver builds for `vQ` and `dQ`. -/
def rQ : Route ℚ := { vehicle_id := 1, deliveries := [dQmapped] }

section Theorems

variable {α : Type} [LinearOrderedField α]

theorem haversine_distance_self (lat lon : ℝ) :
    haversine_distance lat lon lat lon = 0 := by
  simp [haversine_distance]

theorem haversine_zero_ninety :
    haversine_distance 0 0 0 90 = 3185500 * Real.pi := by
  have h3 : Real.sin (Real.pi / 4) ^ 2 = 1 / 2 := by
    rw [Real.sin_pi_div_four, div_pow, Real.sq_sqrt] <;> norm_num
  have h4 : Real.sqrt (1 / 2) = Real.sqrt 2 / 2 := by
    rw [show (1/2:ℝ) = (Real.sqrt 2 / 2) ^ 2 by
          rw [div_pow, Real.sq_sqrt] <;> norm_num,
      Real.sqrt_sq (by positivity)]
  have h5 : Real.arcsin (Real.sqrt 2 / 2) = Real.pi / 4 := by
    rw [← Real.sin_pi_div_four, Real.arcsin_sin] <;> nlinarith [Real.pi_pos]
  simp only [haversine_distance]
  norm_num
  rw [show (90:ℝ) * Real.pi / 180 / 2 = Real.pi / 4 by ring, h3, h4, h5]
  ring

theorem cex_heuristic_0_2 :
    calculate_heuristic cexGraph 0 2 = 3185500 * Real.pi := by
  simp only [calculate_heuristic, get_node_coordinates, cexGraph]
  norm_num
  exact haversine_zero_ninety

theorem cex_heuristic_1_2 :
    calculate_heuristic cexGraph 1 2 = 3185500 * Real.pi := by
  simp only [calculate_heuristic, get_node_coordinates, cexGraph]
  norm_num
  exact haversine_zero_ninety

theorem cex_heuristic_2_2 : calculate_heuristic cexGraph 2 2 = 0 := by
  simp only [calculate_heuristic, get_node_coordinates, cexGraph]
  norm_num
  exact haversine_distance_self 0 90

theorem cexGraph_nodes : cexGraph.nodes = [0, 1, 2] := rfl

theorem cexGraph_adj0 :
    cexGraph.adj 0 = [(1, [⟨some 1, none⟩]), (2, [⟨some 5, none⟩])] := rfl

theorem cexGraph_adj1 : cexGraph.adj 1 = [(2, [⟨some 1, none⟩])] := rfl

theorem cexGraph_adj2 : cexGraph.adj 2 = [] := rfl

theorem cexGraph_fuel : searchFuel cexGraph = 7 := rfl

theorem cexGraph_dijkstra_run : find_path_dijkstra cexGraph 0 2 = ([0, 1, 2], some 2) := by
  norm_num [find_path_dijkstra, cexGraph, Graph.hasNode, searchFuel,
    show (7:ℕ) = 6+1 from rfl, show (6:ℕ) = 5+1 from rfl,
    show (5:ℕ) = 4+1 from rfl,
    show (4:ℕ) = 3+1 from rfl, show (3:ℕ) = 2+1 from rfl,
    show (2:ℕ) = 1+1 from rfl, show (1:ℕ) = 0+1 from rfl,
    dijkstraLoop, pqGet, pqMin, pqRemove, pairLt, dijkstraRelax,
    bestWeight, edgeAttrWeight, ltInf, reconstruct_path, predWalk,
    Option.some_ne_none]

theorem cexGraph_astar_run : find_path_a_star cexGraph 0 2 = ([0, 2], some 5) := by
  have h5lt : (5:ℝ) < 1 + 3185500 * Real.pi := by nlinarith [Real.pi_gt_three]
  norm_num [find_path_a_star, Graph.hasNode, cexGraph_nodes, cexGraph_fuel,
    cexGraph_adj0, cexGraph_adj1, cexGraph_adj2,
    show (7:ℕ) = 6+1 from rfl, show (6:ℕ) = 5+1 from rfl,
    show (5:ℕ) = 4+1 from rfl,
    show (4:ℕ) = 3+1 from rfl, show (3:ℕ) = 2+1 from rfl,
    show (2:ℕ) = 1+1 from rfl, show (1:ℕ) = 0+1 from rfl,
    aStarLoop, pqGet, pqMin, pqRemove, pairLt, aStarRelax,
    bestWeight, edgeAttrWeight, ltInf, reconstruct_path, predWalk,
    Option.some_ne_none, cex_heuristic_0_2, cex_heuristic_1_2,
    cex_heuristic_2_2, h5lt]

theorem aStarRelax_toD (G : Graph ℝ) (endN current : ℕ) (gcur : ℝ)
    (h0 : ∀ n, calculate_heuristic G n endN = 0) :
    ∀ (pairs : List (ℕ × List (EdgeData ℝ))) (st : AState)
      (pq : List (ℝ × ℕ)),
      (aStarRelax G endN current gcur pairs st pq).1.toD
          = (dijkstraRelax current gcur pairs st.toD pq).1
        ∧ (aStarRelax G endN current gcur pairs st pq).2
          = (dijkstraRelax current gcur pairs st.toD pq).2 := by
  intro pairs
  induction pairs with
  | nil => intro st pq; exact ⟨rfl, rfl⟩
  | cons pr rest ih =>
    intro st pq
    simp only [aStarRelax, dijkstraRelax, List.foldl_cons] at *
    by_cases hv : pr.1 ∈ st.visited
    · have hv' : pr.1 ∈ st.toD.visited := hv
      simp only [hv, hv', if_pos, AState.toD]
      exact ih st pq
    · have hv' : pr.1 ∉ st.toD.visited := hv
      simp only [hv, hv', if_neg, not_false_iff, AState.toD]
      cases hbw : bestWeight pr.2 with
      | none => exact ih st pq
      | some w =>
        by_cases hlt : ltInf (gcur + w) (st.g pr.1)
        · have hlt' : ltInf (gcur + w) (st.toD.dist pr.1) := hlt
          simp only [hlt, hlt', if_pos, AState.toD, h0 pr.1, add_zero]
          exact ih _ _
        · have hlt' : ¬ ltInf (gcur + w) (st.toD.dist pr.1) := hlt
          simp only [hlt, hlt', if_neg, not_false_iff, AState.toD]
          exact ih st pq

theorem aStarLoop_toD (G : Graph ℝ) (endN : ℕ)
    (h0 : ∀ n, calculate_heuristic G n endN = 0) :
    ∀ (fuel : ℕ) (pq : List (ℝ × ℕ)) (st : AState),
      (aStarLoop G endN fuel pq st).toD
        = dijkstraLoop G endN fuel pq st.toD := by
  intro fuel
  induction fuel with
  | zero => intro pq st; rfl
  | succ fuel ih =>
    intro pq st
    simp only [aStarLoop, dijkstraLoop]
    cases hpq : pqGet pq with
    | none => rfl
    | some popped =>
      obtain ⟨⟨p, current⟩, pq'⟩ := popped
      by_cases hv : current ∈ st.visited
      · have hv' : current ∈ st.toD.visited := hv
        simp only [hv, hv', if_pos]
        exact ih pq' st
      · have hv' : current ∉ st.toD.visited := hv
        simp only [hv, hv', if_neg, not_false_iff]
        by_cases hend : current = endN
        · simp only [hend, if_pos]; rfl
        · simp only [hend, if_neg, not_false_iff]
          cases hg : st.g current with
          | none =>
            have hgA : ({ st with visited := current :: st.visited } : AState).g current = none := hg
            have hgD : st.toD.dist current = none := hg
            simp only [hg, hgA, hgD]
            exact ih pq' _
          | some gcur =>
            have hgA : ({ st with visited := current :: st.visited } : AState).g current = some gcur := hg
            have hgD : st.toD.dist current = some gcur := hg
            simp only [hg, hgA, hgD]
            have hrel := aStarRelax_toD G endN current gcur h0 (G.adj current)
              { st with visited := current :: st.visited } pq'
            rw [ih _ _, hrel.2, hrel.1]
            rfl

theorem astar_eq_dijkstra_of_zero_heuristic (G : Graph ℝ) (s e : ℕ)
    (h0 : ∀ n, calculate_heuristic G n e = 0) :
    find_path_a_star G s e = find_path_dijkstra G s e := by
  by_cases hse : s = e
  · simp [find_path_a_star, find_path_dijkstra, hse]
  · by_cases habs : ¬G.hasNode s ∨ ¬G.hasNode e
    · simp [find_path_a_star, find_path_dijkstra, if_neg hse, habs]
    · have hl := aStarLoop_toD G e h0 (searchFuel G)
          [(calculate_heuristic G s e, s)]
          { g := fun n => if n = s then some 0 else none
            f := fun n => if n = s then some (calculate_heuristic G s e) else none
            pred := fun _ => none
            visited := [] }
      have hg := congrArg DState.dist hl
      have hp := congrArg DState.pred hl
      simp only [AState.toD] at hg hp
      simp only [find_path_a_star, find_path_dijkstra, if_neg hse, if_neg habs]
      rw [h0 s] at hg hp ⊢
      rw [hg, hp]
      cases hval : (dijkstraLoop G e (searchFuel G) [(0, s)]
          { dist := fun n => if n = s then some 0 else none,
            pred := fun _ => none, visited := [] }).dist e with
      | none => rfl
      | some d => rfl

theorem pqMin_mem : ∀ (best : α × ℕ) (l : List (α × ℕ)),
    pqMin best l ∈ best :: l := by
  intro best l
  induction l generalizing best with
  | nil => simp [pqMin]
  | cons x xs ih =>
    rw [pqMin]
    rcases List.mem_cons.1 (ih (if pairLt x best then x else best)) with h | h
    · rw [h]
      by_cases hc : pairLt x best
      · simp [hc]
      · simp [hc]
    · simp [h]

theorem pqRemove_subset : ∀ (l : List (α × ℕ)) (m p : α × ℕ),
    p ∈ pqRemove l m → p ∈ l := by
  intro l
  induction l with
  | nil => intro m p h; simp [pqRemove] at h
  | cons x xs ih =>
    intro m p h
    rw [pqRemove] at h
    by_cases hc : x = m
    · simp only [hc, if_pos] at h
      exact List.mem_cons_of_mem _ h
    · simp only [hc, if_neg, not_false_iff] at h
      rcases List.mem_cons.1 h with h' | h'
      · exact h' ▸ List.mem_cons_self _ _
      · exact List.mem_cons_of_mem _ (ih m p h')

theorem pqGet_spec {pq pq' : List (α × ℕ)} {m : α × ℕ}
    (h : pqGet pq = some (m, pq')) :
    m ∈ pq ∧ ∀ q ∈ pq', q ∈ pq := by
  cases pq with
  | nil => simp [pqGet] at h
  | cons x xs =>
    simp only [pqGet, Option.some.injEq, Prod.mk.injEq] at h
    obtain ⟨h1, h2⟩ := h
    constructor
    · rw [← h1]; exact pqMin_mem x xs
    · intro q hq
      rw [← h2] at hq
      exact pqRemove_subset _ _ _ hq

theorem dijkstraRelax_reach (G : Graph α) (s current : ℕ) (dcur : α)
    (hcur : Reach G s current) :
    ∀ (pairs : List (ℕ × List (EdgeData α))) (st : DState α)
      (pq : List (α × ℕ)),
      (∀ pr ∈ pairs, pr ∈ G.adj current) →
      (∀ n, st.dist n ≠ none → Reach G s n) →
      (∀ p ∈ pq, Reach G s p.2) →
      (∀ n, (dijkstraRelax current dcur pairs st pq).1.dist n ≠ none →
        Reach G s n) ∧
      (∀ p ∈ (dijkstraRelax current dcur pairs st pq).2, Reach G s p.2) := by
  intro pairs
  induction pairs with
  | nil => intro st pq _ hd hq; exact ⟨hd, hq⟩
  | cons pr rest ih =>
    intro st pq hsub hd hq
    simp only [dijkstraRelax, List.foldl_cons] at *
    have hpr : pr ∈ G.adj current := hsub pr (List.mem_cons_self _ _)
    have hsub' : ∀ q ∈ rest, q ∈ G.adj current :=
      fun q hq' => hsub q (List.mem_cons_of_mem _ hq')
    by_cases hv : pr.1 ∈ st.visited
    · simp only [hv, if_pos]
      exact ih st pq hsub' hd hq
    · simp only [hv, if_neg, not_false_iff]
      cases hbw : bestWeight pr.2 with
      | none => exact ih st pq hsub' hd hq
      | some w =>
        by_cases hlt : ltInf (dcur + w) (st.dist pr.1)
        · simp only [hlt, if_pos]
          have hreach : Reach G s pr.1 :=
            Relation.ReflTransGen.tail hcur
              ⟨pr, hpr, rfl, by rw [hbw]; exact Option.some_ne_none w⟩
          refine ih _ _ hsub' ?_ ?_
          · intro n hn
            by_cases hn' : n = pr.1
            · exact hn' ▸ hreach
            · simp only [hn', if_neg, not_false_iff] at hn
              exact hd n hn
          · intro p hp
            rcases List.mem_append.1 hp with h' | h'
            · exact hq p h'
            · simp only [List.mem_singleton] at h'
              rw [h']
              exact hreach
        · simp only [hlt, if_neg, not_false_iff]
          exact ih st pq hsub' hd hq

theorem dijkstraLoop_reach (G : Graph α) (s endN : ℕ) :
    ∀ (fuel : ℕ) (pq : List (α × ℕ)) (st : DState α),
      (∀ n, st.dist n ≠ none → Reach G s n) →
      (∀ p ∈ pq, Reach G s p.2) →
      ∀ n, (dijkstraLoop G endN fuel pq st).dist n ≠ none → Reach G s n := by
  intro fuel
  induction fuel with
  | zero => intro pq st hd _ n hn; exact hd n hn
  | succ fuel ih =>
    intro pq st hd hq
    rw [dijkstraLoop]
    cases hpq : pqGet pq with
    | none => exact hd
    | some popped =>
      obtain ⟨⟨p, current⟩, pq'⟩ := popped
      obtain ⟨hmem, hsub⟩ := pqGet_spec hpq
      have hcur : Reach G s current := hq _ hmem
      have hq' : ∀ q ∈ pq', Reach G s q.2 := fun q hq'' => hq q (hsub q hq'')
      by_cases hv : current ∈ st.visited
      · simp only [hv, if_pos]
        exact ih pq' st hd hq'
      · simp only [hv, if_neg, not_false_iff]
        by_cases hend : current = endN
        · simp only [hend, if_pos]
          exact hd
        · simp only [hend, if_neg, not_false_iff]
          cases hg : st.dist current with
          | none => exact ih pq' _ hd hq'
          | some dcur =>
            have hrel := dijkstraRelax_reach G s current dcur hcur
              (G.adj current) { st with visited := current :: st.visited } pq'
              (fun _ h => h) hd hq'
            exact ih _ _ hrel.1 hrel.2


theorem edgeAttrWeight_nonneg {e : EdgeData α}
    (he : (∀ x, e.length = some x → 0 ≤ x) ∧ (∀ x, e.weight = some x → 0 ≤ x))
    {w : α} (hw : edgeAttrWeight e = some w) : 0 ≤ w := by
  rw [edgeAttrWeight] at hw
  cases hl : e.length with
  | none => rw [hl] at hw; exact he.2 w hw
  | some l =>
    rw [hl] at hw
    exact he.1 w (by rw [hl, Option.some_inj.1 hw])

theorem bestWeight_nonneg_aux :
    ∀ (es : List (EdgeData α)) (acc : Option α),
      (∀ e ∈ es, (∀ x, e.length = some x → 0 ≤ x) ∧
        (∀ x, e.weight = some x → 0 ≤ x)) →
      (∀ b, acc = some b → 0 ≤ b) →
      ∀ w, es.foldl
          (fun b e =>
            match edgeAttrWeight e with
            | none => b
            | some w => if ltInf w b then some w else b) acc = some w →
        0 ≤ w := by
  intro es
  induction es with
  | nil => intro acc _ hacc w h; exact hacc w h
  | cons e rest ih =>
    intro acc hes hacc w h
    rw [List.foldl_cons] at h
    have he := hes e (List.mem_cons_self _ _)
    have hrest : ∀ e' ∈ rest, _ := fun e' h' => hes e' (List.mem_cons_of_mem _ h')
    refine ih _ hrest ?_ w h
    intro b hb
    cases haw : edgeAttrWeight e with
    | none => simp only [haw] at hb; exact hacc b hb
    | some v =>
      simp only [haw] at hb
      by_cases hlt : ltInf v acc
      · rw [if_pos hlt] at hb
        rw [← Option.some_inj.1 hb]
        exact edgeAttrWeight_nonneg he haw
      · rw [if_neg hlt] at hb
        exact hacc b hb

theorem bestWeight_nonneg {es : List (EdgeData α)}
    (hes : ∀ e ∈ es, (∀ x, e.length = some x → 0 ≤ x) ∧
      (∀ x, e.weight = some x → 0 ≤ x))
    {w : α} (h : bestWeight es = some w) : 0 ≤ w :=
  bestWeight_nonneg_aux es none hes (by simp) w h

theorem dijkstraRelax_nonneg (G : Graph α) (current : ℕ) (dcur : α)
    (hG : nonnegWeights G) (hdc : 0 ≤ dcur) :
    ∀ (pairs : List (ℕ × List (EdgeData α))) (st : DState α)
      (pq : List (α × ℕ)),
      (∀ pr ∈ pairs, pr ∈ G.adj current) →
      (∀ n d, st.dist n = some d → 0 ≤ d) →
      ∀ n d, (dijkstraRelax current dcur pairs st pq).1.dist n = some d →
        0 ≤ d := by
  intro pairs
  induction pairs with
  | nil => intro st pq _ hd; exact hd
  | cons pr rest ih =>
    intro st pq hsub hd
    simp only [dijkstraRelax, List.foldl_cons] at *
    have hpr : pr ∈ G.adj current := hsub pr (List.mem_cons_self _ _)
    have hsub' : ∀ q ∈ rest, q ∈ G.adj current :=
      fun q hq' => hsub q (List.mem_cons_of_mem _ hq')
    by_cases hv : pr.1 ∈ st.visited
    · simp only [hv, if_pos]
      exact ih st pq hsub' hd
    · simp only [hv, if_neg, not_false_iff]
      cases hbw : bestWeight pr.2 with
      | none => exact ih st pq hsub' hd
      | some w =>
        have hw : 0 ≤ w := bestWeight_nonneg (hG current pr hpr) hbw
        by_cases hlt : ltInf (dcur + w) (st.dist pr.1)
        · simp only [hlt, if_pos]
          refine ih _ _ hsub' ?_
          intro n d hn
          by_cases hn' : n = pr.1
          · simp only [hn', if_pos] at hn
            rw [← Option.some_inj.1 hn]
            exact add_nonneg hdc hw
          · simp only [hn', if_neg, not_false_iff] at hn
            exact hd n d hn
        · simp only [hlt, if_neg, not_false_iff]
          exact ih st pq hsub' hd

theorem dijkstraLoop_nonneg (G : Graph α) (endN : ℕ) (hG : nonnegWeights G) :
    ∀ (fuel : ℕ) (pq : List (α × ℕ)) (st : DState α),
      (∀ n d, st.dist n = some d → 0 ≤ d) →
      ∀ n d, (dijkstraLoop G endN fuel pq st).dist n = some d → 0 ≤ d := by
  intro fuel
  induction fuel with
  | zero => intro pq st hd; exact hd
  | succ fuel ih =>
    intro pq st hd
    rw [dijkstraLoop]
    cases hpq : pqGet pq with
    | none => exact hd
    | some popped =>
      obtain ⟨⟨p, current⟩, pq'⟩ := popped
      by_cases hv : current ∈ st.visited
      · simp only [hv, if_pos]
        exact ih pq' st hd
      · simp only [hv, if_neg, not_false_iff]
        by_cases hend : current = endN
        · simp only [hend, if_pos]
          exact hd
        · simp only [hend, if_neg, not_false_iff]
          cases hg : st.dist current with
          | none => exact ih pq' _ hd
          | some dcur =>
            have hdc : 0 ≤ dcur := hd current dcur hg
            exact ih _ _
              (dijkstraRelax_nonneg G current dcur hG hdc (G.adj current)
                { st with visited := current :: st.visited } pq'
                (fun _ h => h) hd)

theorem find_path_dijkstra_nonneg (G : Graph α) (s t : ℕ)
    (hG : nonnegWeights G) {p : List ℕ} {d : α}
    (h : find_path_dijkstra G s t = (p, some d)) : 0 ≤ d := by
  simp only [find_path_dijkstra] at h
  split_ifs at h with h1 h2
  · have h' : some (0 : α) = some d := congrArg Prod.snd h
    rw [← Option.some_inj.1 h']
  · have h' : (none : Option α) = some d := congrArg Prod.snd h
    simp at h'
  · have hfin := dijkstraLoop_nonneg G t hG (searchFuel G) [(0, s)]
      { dist := fun n => if n = s then some 0 else none
        pred := fun _ => none, visited := [] }
      (by
        intro n dd hn
        by_cases hn' : n = s
        · simp only [hn', if_pos] at hn
          rw [← Option.some_inj.1 hn]
        · simp [hn'] at hn)
    cases hval : (dijkstraLoop G t (searchFuel G) [(0, s)]
        { dist := fun n => if n = s then some 0 else none
          pred := fun _ => none, visited := [] }).dist t with
    | none =>
      rw [hval] at h
      have h' : (none : Option α) = some d := congrArg Prod.snd h
      simp at h'
    | some dv =>
      rw [hval] at h
      have h' : some dv = some d := congrArg Prod.snd h
      rw [← Option.some_inj.1 h']
      exact hfin t dv hval


theorem aStarRelax_nonneg (G : Graph ℝ) (endN current : ℕ) (gcur : ℝ)
    (hG : nonnegWeights G) (hdc : 0 ≤ gcur) :
    ∀ (pairs : List (ℕ × List (EdgeData ℝ))) (st : AState)
      (pq : List (ℝ × ℕ)),
      (∀ pr ∈ pairs, pr ∈ G.adj current) →
      (∀ n d, st.g n = some d → 0 ≤ d) →
      ∀ n d, (aStarRelax G endN current gcur pairs st pq).1.g n = some d →
        0 ≤ d := by
  intro pairs
  induction pairs with
  | nil => intro st pq _ hd; exact hd
  | cons pr rest ih =>
    intro st pq hsub hd
    simp only [aStarRelax, List.foldl_cons] at *
    have hpr : pr ∈ G.adj current := hsub pr (List.mem_cons_self _ _)
    have hsub' : ∀ q ∈ rest, q ∈ G.adj current :=
      fun q hq' => hsub q (List.mem_cons_of_mem _ hq')
    by_cases hv : pr.1 ∈ st.visited
    · simp only [hv, if_pos]
      exact ih st pq hsub' hd
    · simp only [hv, if_neg, not_false_iff]
      cases hbw : bestWeight pr.2 with
      | none => exact ih st pq hsub' hd
      | some w =>
        have hw : 0 ≤ w := bestWeight_nonneg (hG current pr hpr) hbw
        by_cases hlt : ltInf (gcur + w) (st.g pr.1)
        · simp only [hlt, if_pos]
          refine ih _ _ hsub' ?_
          intro n d hn
          by_cases hn' : n = pr.1
          · simp only [hn', if_pos] at hn
            rw [← Option.some_inj.1 hn]
            exact add_nonneg hdc hw
          · simp only [hn', if_neg, not_false_iff] at hn
            exact hd n d hn
        · simp only [hlt, if_neg, not_false_iff]
          exact ih st pq hsub' hd

theorem aStarLoop_nonneg (G : Graph ℝ) (endN : ℕ) (hG : nonnegWeights G) :
    ∀ (fuel : ℕ) (pq : List (ℝ × ℕ)) (st : AState),
      (∀ n d, st.g n = some d → 0 ≤ d) →
      ∀ n d, (aStarLoop G endN fuel pq st).g n = some d → 0 ≤ d := by
  intro fuel
  induction fuel with
  | zero => intro pq st hd; exact hd
  | succ fuel ih =>
    intro pq st hd
    rw [aStarLoop]
    cases hpq : pqGet pq with
    | none => exact hd
    | some popped =>
      obtain ⟨⟨p, current⟩, pq'⟩ := popped
      by_cases hv : current ∈ st.visited
      · simp only [hv, if_pos]
        exact ih pq' st hd
      · simp only [hv, if_neg, not_false_iff]
        by_cases hend : current = endN
        · simp only [hend, if_pos]
          exact hd
        · simp only [hend, if_neg, not_false_iff]
          cases hg : st.g current with
          | none => exact ih pq' _ hd
          | some gcur =>
            have hdc : 0 ≤ gcur := hd current gcur hg
            exact ih _ _
              (aStarRelax_nonneg G endN current gcur hG hdc (G.adj current)
                { st with visited := current :: st.visited } pq'
                (fun _ h => h) hd)

theorem find_path_a_star_nonneg (G : Graph ℝ) (s t : ℕ)
    (hG : nonnegWeights G) {p : List ℕ} {d : ℝ}
    (h : find_path_a_star G s t = (p, some d)) : 0 ≤ d := by
  simp only [find_path_a_star] at h
  split_ifs at h with h1 h2
  · have h' : some (0 : ℝ) = some d := congrArg Prod.snd h
    rw [← Option.some_inj.1 h']
  · have h' : (none : Option ℝ) = some d := congrArg Prod.snd h
    simp at h'
  · have hfin := aStarLoop_nonneg G t hG (searchFuel G)
      [(calculate_heuristic G s t, s)]
      { g := fun n => if n = s then some 0 else none
        f := fun n => if n = s then some (calculate_heuristic G s t) else none
        pred := fun _ => none, visited := [] }
      (by
        intro n dd hn
        by_cases hn' : n = s
        · simp only [hn', if_pos] at hn
          rw [← Option.some_inj.1 hn]
        · simp [hn'] at hn)
    cases hval : (aStarLoop G t (searchFuel G) [(calculate_heuristic G s t, s)]
        { g := fun n => if n = s then some 0 else none
          f := fun n => if n = s then some (calculate_heuristic G s t) else none
          pred := fun _ => none, visited := [] }).g t with
    | none =>
      rw [hval] at h
      have h' : (none : Option ℝ) = some d := congrArg Prod.snd h
      simp at h'
    | some dv =>
      rw [hval] at h
      have h' : some dv = some d := congrArg Prod.snd h
      rw [← Option.some_inj.1 h']
      exact hfin t dv hval

theorem costLoop_eq_folds (up : Bool) (sP : ℕ → ℕ → Option (List ℕ × Option ℝ))
    (sD : ℕ → ℕ → Option (Option ℝ)) (unique : List ℕ) :
    costLoop up sP sD unique
      = outerFold up sP sD unique.enum unique.enum
          (initMatrix unique.length, []) := rfl

theorem setRow_getD_or : ∀ (l : List (Option ℝ)) (j j' : ℕ) (v : Option ℝ),
    (l.set j v).getD j' none = v ∨ (l.set j v).getD j' none = l.getD j' none := by
  intro l
  induction l with
  | nil => intro j j' v; right; rfl
  | cons x xs ih =>
    intro j j' v
    cases j with
    | zero =>
      cases j' with
      | zero => left; rfl
      | succ j' => right; rfl
    | succ j =>
      cases j' with
      | zero => right; rfl
      | succ j' => exact ih j j' v

theorem setRow_getD_ne : ∀ (l : List (Option ℝ)) (j j' : ℕ) (v : Option ℝ),
    j' ≠ j → (l.set j v).getD j' none = l.getD j' none := by
  intro l
  induction l with
  | nil => intro j j' v _; rfl
  | cons x xs ih =>
    intro j j' v h
    cases j with
    | zero =>
      cases j' with
      | zero => exact absurd rfl h
      | succ j' => rfl
    | succ j =>
      cases j' with
      | zero => rfl
      | succ j' => exact ih j j' v (fun hc => h (by rw [hc]))

theorem setRow_getD_eq : ∀ (l : List (Option ℝ)) (j : ℕ) (v : Option ℝ),
    j < l.length → (l.set j v).getD j none = v := by
  intro l
  induction l with
  | nil => intro j v h; simp at h
  | cons x xs ih =>
    intro j v h
    cases j with
    | zero => rfl
    | succ j => exact ih j v (Nat.lt_of_succ_lt_succ h)

theorem getCell_setCell_or :
    ∀ (M : List (List (Option ℝ))) (i i' j j' : ℕ) (v : Option ℝ),
      getCell (setCell M i j v) i' j' = v
        ∨ getCell (setCell M i j v) i' j' = getCell M i' j' := by
  intro M
  induction M with
  | nil => intro i i' j j' v; right; rfl
  | cons row rest ih =>
    intro i i' j j' v
    cases i with
    | zero =>
      cases i' with
      | zero => exact setRow_getD_or row j j' v
      | succ i' => right; rfl
    | succ i =>
      cases i' with
      | zero => right; rfl
      | succ i' => exact ih i i' j j' v

theorem getCell_setCell_ne :
    ∀ (M : List (List (Option ℝ))) (i i' j j' : ℕ) (v : Option ℝ),
      (i' ≠ i ∨ j' ≠ j) →
      getCell (setCell M i j v) i' j' = getCell M i' j' := by
  intro M
  induction M with
  | nil => intro i i' j j' v _; rfl
  | cons row rest ih =>
    intro i i' j j' v h
    cases i with
    | zero =>
      cases i' with
      | zero =>
        rcases h with h | h
        · exact absurd rfl h
        · exact setRow_getD_ne row j j' v h
      | succ i' => rfl
    | succ i =>
      cases i' with
      | zero => rfl
      | succ i' =>
        refine ih i i' j j' v ?_
        rcases h with h | h
        · exact Or.inl (fun hc => h (by rw [hc]))
        · exact Or.inr h

theorem getCell_setCell_eq :
    ∀ (M : List (List (Option ℝ))) (i j : ℕ) (v : Option ℝ),
      i < M.length → j < (M.getD i []).length →
      getCell (setCell M i j v) i j = v := by
  intro M
  induction M with
  | nil => intro i j v hi _; simp at hi
  | cons row rest ih =>
    intro i j v hi hj
    cases i with
    | zero => exact setRow_getD_eq row j v hj
    | succ i => exact ih i j v (Nat.lt_of_succ_lt_succ hi) hj

theorem matShape_getD_length {M : List (List (Option ℝ))} {n : ℕ}
    (hM : MatShape M n) {i : ℕ} (hi : i < n) :
    (M.getD i []).length = n := by
  have hlen : i < M.length := by rw [hM.1]; exact hi
  have : M.getD i [] ∈ M := by
    rw [List.getD_eq_getElem M [] hlen]
    exact List.getElem_mem hlen
  exact hM.2 _ this

theorem setCell_length :
    ∀ (M : List (List (Option ℝ))) (i j : ℕ) (v : Option ℝ),
      (setCell M i j v).length = M.length := by
  intro M
  induction M with
  | nil => intro i j v; rfl
  | cons row rest ih =>
    intro i j v
    cases i with
    | zero => rfl
    | succ i => simp [setCell, ih i j v]

theorem setCell_rows :
    ∀ (M : List (List (Option ℝ))) (i j : ℕ) (v : Option ℝ) {n : ℕ},
      (∀ r ∈ M, r.length = n) →
      ∀ r ∈ setCell M i j v, r.length = n := by
  intro M
  induction M with
  | nil => intro i j v n h r hr; simp [setCell] at hr
  | cons row rest ih =>
    intro i j v n h r hr
    cases i with
    | zero =>
      rcases List.mem_cons.1 hr with h' | h'
      · rw [h', List.length_set]
        exact h row (List.mem_cons_self _ _)
      · exact h r (List.mem_cons_of_mem _ h')
    | succ i =>
      rcases List.mem_cons.1 hr with h' | h'
      · rw [h']
        exact h row (List.mem_cons_self _ _)
      · exact ih i j v (fun r' hr' => h r' (List.mem_cons_of_mem _ hr')) r h'

theorem setCell_shape {M : List (List (Option ℝ))} (i j : ℕ) (v : Option ℝ)
    {n : ℕ} (hM : MatShape M n) : MatShape (setCell M i j v) n :=
  ⟨by rw [setCell_length]; exact hM.1, setCell_rows M i j v hM.2⟩

theorem costPairStep_shape (up : Bool)
    (sP : ℕ → ℕ → Option (List ℕ × Option ℝ))
    (sD : ℕ → ℕ → Option (Option ℝ))
    (acc : List (List (Option ℝ)) × List ((ℕ × ℕ) × List ℕ))
    (i source j target : ℕ) {n : ℕ} (hM : MatShape acc.1 n) :
    MatShape (costPairStep up sP sD acc i source j target).1 n := by
  rw [costPairStep]
  split_ifs with h1 h2
  · exact hM
  · split
    · exact hM
    · rename_i pd hpd
      by_cases hp : pd.1 ≠ []
      · rw [if_pos hp]
        exact setCell_shape i j pd.2 hM
      · rw [if_neg hp]
        exact hM
  · split
    · exact hM
    · rename_i distance hdist
      by_cases hd : distance ≠ none
      · rw [if_pos hd]
        exact setCell_shape i j distance hM
      · rw [if_neg hd]
        exact hM

theorem costPairStep_getCell_ne (up : Bool)
    (sP : ℕ → ℕ → Option (List ℕ × Option ℝ))
    (sD : ℕ → ℕ → Option (Option ℝ))
    (acc : List (List (Option ℝ)) × List ((ℕ × ℕ) × List ℕ))
    (i source j target i' j' : ℕ) (h : i' ≠ i ∨ j' ≠ j) :
    getCell (costPairStep up sP sD acc i source j target).1 i' j'
      = getCell acc.1 i' j' := by
  rw [costPairStep]
  split_ifs with h1 h2
  · rfl
  · split
    · rfl
    · rename_i pd hpd
      by_cases hp : pd.1 ≠ []
      · rw [if_pos hp]
        exact getCell_setCell_ne acc.1 i i' j j' pd.2 h
      · rw [if_neg hp]
  · split
    · rfl
    · rename_i distance hdist
      by_cases hd : distance ≠ none
      · rw [if_pos hd]
        exact getCell_setCell_ne acc.1 i i' j j' distance h
      · rw [if_neg hd]

theorem costPairStep_getCell_eq (up : Bool)
    (sP : ℕ → ℕ → Option (List ℕ × Option ℝ))
    (sD : ℕ → ℕ → Option (Option ℝ))
    (acc : List (List (Option ℝ)) × List ((ℕ × ℕ) × List ℕ))
    (i source j target : ℕ) {n : ℕ} (hM : MatShape acc.1 n)
    (hij : i ≠ j) (hi : i < n) (hj : j < n) :
    getCell (costPairStep up sP sD acc i source j target).1 i j
      = pairVal up sP sD source target (getCell acc.1 i j) := by
  have hlen : i < acc.1.length := by rw [hM.1]; exact hi
  have hrow : j < (acc.1.getD i []).length := by
    rw [matShape_getD_length hM hi]; exact hj
  cases up with
  | true =>
    cases hP : sP source target with
    | none =>
      simp only [costPairStep, pairVal, hP, if_neg hij, eq_self_iff_true,
        if_true]
    | some pd =>
      by_cases hp : pd.1 ≠ []
      · simp only [costPairStep, pairVal, hP, if_neg hij, eq_self_iff_true,
          if_true, if_pos hp]
        exact getCell_setCell_eq acc.1 i j pd.2 hlen hrow
      · simp only [costPairStep, pairVal, hP, if_neg hij, eq_self_iff_true,
          if_true, if_neg hp]
  | false =>
    cases hD : sD source target with
    | none =>
      simp only [costPairStep, pairVal, hD, if_neg hij, Bool.false_eq_true,
        if_false]
    | some distance =>
      by_cases hd : distance ≠ none
      · simp only [costPairStep, pairVal, hD, if_neg hij, Bool.false_eq_true,
          if_false, if_pos hd]
        exact getCell_setCell_eq acc.1 i j distance hlen hrow
      · simp only [costPairStep, pairVal, hD, if_neg hij, Bool.false_eq_true,
          if_false, if_neg hd]

theorem mapRange_getD {γ : Type} (f : ℕ → γ) (n i : ℕ) (d : γ)
    (hi : i < n) : ((List.range n).map f).getD i d = f i := by
  rw [List.getD_eq_getElem _ _ (by simpa using hi)]
  simp

theorem initMatrix_shape (n : ℕ) : MatShape (initMatrix n) n := by
  constructor
  · simp [initMatrix]
  · intro r hr
    rw [initMatrix] at hr
    obtain ⟨i, _, hr⟩ := List.mem_map.1 hr
    rw [← hr]
    simp

theorem getCell_initMatrix (n i j : ℕ) (hi : i < n) (hj : j < n) :
    getCell (initMatrix n) i j = if i = j then some (0:ℝ) else none := by
  rw [getCell, initMatrix, mapRange_getD _ n i [] hi,
    mapRange_getD _ n j _ hj]

theorem innerFold_shape (up : Bool)
    (sP : ℕ → ℕ → Option (List ℕ × Option ℝ))
    (sD : ℕ → ℕ → Option (Option ℝ)) (i source : ℕ) {n : ℕ} :
    ∀ (targets : List (ℕ × ℕ))
      (acc : List (List (Option ℝ)) × List ((ℕ × ℕ) × List ℕ)),
      MatShape acc.1 n →
      MatShape (innerFold up sP sD targets i source acc).1 n := by
  intro targets
  induction targets with
  | nil => intro acc h; exact h
  | cons q rest ih =>
    intro acc h
    simp only [innerFold, List.foldl_cons] at *
    exact ih _ (costPairStep_shape up sP sD acc i source q.1 q.2 h)

theorem innerFold_untouched (up : Bool)
    (sP : ℕ → ℕ → Option (List ℕ × Option ℝ))
    (sD : ℕ → ℕ → Option (Option ℝ)) (i source : ℕ) :
    ∀ (targets : List (ℕ × ℕ))
      (acc : List (List (Option ℝ)) × List ((ℕ × ℕ) × List ℕ))
      (i' j' : ℕ),
      (i' ≠ i ∨ ∀ p ∈ targets, j' ≠ p.1) →
      getCell (innerFold up sP sD targets i source acc).1 i' j'
        = getCell acc.1 i' j' := by
  intro targets
  induction targets with
  | nil => intro acc i' j' _; rfl
  | cons q rest ih =>
    intro acc i' j' h
    simp only [innerFold, List.foldl_cons] at *
    have hstep : getCell (costPairStep up sP sD acc i source q.1 q.2).1 i' j'
        = getCell acc.1 i' j' := by
      refine costPairStep_getCell_ne up sP sD acc i source q.1 q.2 i' j' ?_
      rcases h with h | h
      · exact Or.inl h
      · exact Or.inr (h q (List.mem_cons_self _ _))
    rw [← hstep]
    refine ih _ i' j' ?_
    rcases h with h | h
    · exact Or.inl h
    · exact Or.inr (fun p hp => h p (List.mem_cons_of_mem _ hp))

theorem innerFold_cons (up : Bool)
    (sP : ℕ → ℕ → Option (List ℕ × Option ℝ))
    (sD : ℕ → ℕ → Option (Option ℝ)) (i source : ℕ)
    (q : ℕ × ℕ) (rest : List (ℕ × ℕ))
    (acc : List (List (Option ℝ)) × List ((ℕ × ℕ) × List ℕ)) :
    innerFold up sP sD (q :: rest) i source acc
      = innerFold up sP sD rest i source
          (costPairStep up sP sD acc i source q.1 q.2) := rfl

theorem costPairStep_diag (up : Bool)
    (sP : ℕ → ℕ → Option (List ℕ × Option ℝ))
    (sD : ℕ → ℕ → Option (Option ℝ))
    (acc : List (List (Option ℝ)) × List ((ℕ × ℕ) × List ℕ))
    (i source j target : ℕ) (h : i = j) :
    costPairStep up sP sD acc i source j target = acc := by
  rw [costPairStep]
  exact if_pos h

theorem innerFold_hit (up : Bool)
    (sP : ℕ → ℕ → Option (List ℕ × Option ℝ))
    (sD : ℕ → ℕ → Option (Option ℝ)) (i source : ℕ) {n : ℕ} :
    ∀ (targets : List (ℕ × ℕ))
      (acc : List (List (Option ℝ)) × List ((ℕ × ℕ) × List ℕ))
      (j' t' : ℕ),
      (targets.map Prod.fst).Nodup → (j', t') ∈ targets →
      MatShape acc.1 n → i < n → j' < n →
      getCell (innerFold up sP sD targets i source acc).1 i j'
        = if i = j' then getCell acc.1 i j'
          else pairVal up sP sD source t' (getCell acc.1 i j') := by
  intro targets
  induction targets with
  | nil => intro acc j' t' _ hmem; simp at hmem
  | cons q rest ih =>
    obtain ⟨j0, t0⟩ := q
    intro acc j' t' hnd hmem hM hi hj
    rw [innerFold_cons]
    simp only [List.map_cons, List.nodup_cons] at hnd
    have hnd' : (rest.map Prod.fst).Nodup := hnd.2
    have hhead : j0 ∉ rest.map Prod.fst := hnd.1
    rcases List.mem_cons.1 hmem with heq | hmem'
    · have h1 : j' = j0 := congrArg Prod.fst heq
      have h2 : t' = t0 := congrArg Prod.snd heq
      subst h1
      subst h2
      have hrest : ∀ p ∈ rest, j' ≠ p.1 := fun p hp hc =>
        hhead (hc ▸ List.mem_map_of_mem Prod.fst hp)
      rw [innerFold_untouched up sP sD i source rest _ i j' (Or.inr hrest)]
      by_cases hij : i = j'
      · rw [if_pos hij, costPairStep_diag up sP sD acc i source j' t' hij]
      · rw [if_neg hij]
        exact costPairStep_getCell_eq up sP sD acc i source j' t' hM hij hi hj
    · have hj0 : j' ≠ j0 := fun hc =>
        hhead (hc ▸ List.mem_map_of_mem Prod.fst hmem')
      have hstep_ne : getCell (costPairStep up sP sD acc i source j0 t0).1 i j'
          = getCell acc.1 i j' :=
        costPairStep_getCell_ne up sP sD acc i source j0 t0 i j' (Or.inr hj0)
      rw [ih (costPairStep up sP sD acc i source j0 t0) j' t' hnd' hmem'
        (costPairStep_shape up sP sD acc i source j0 t0 hM) hi hj, hstep_ne]

theorem outerFold_cons (up : Bool)
    (sP : ℕ → ℕ → Option (List ℕ × Option ℝ))
    (sD : ℕ → ℕ → Option (Option ℝ)) (targets : List (ℕ × ℕ))
    (p : ℕ × ℕ) (rest : List (ℕ × ℕ))
    (acc : List (List (Option ℝ)) × List ((ℕ × ℕ) × List ℕ)) :
    outerFold up sP sD targets (p :: rest) acc
      = outerFold up sP sD targets rest
          (innerFold up sP sD targets p.1 p.2 acc) := rfl

theorem outerFold_untouched (up : Bool)
    (sP : ℕ → ℕ → Option (List ℕ × Option ℝ))
    (sD : ℕ → ℕ → Option (Option ℝ)) (targets : List (ℕ × ℕ)) :
    ∀ (rows : List (ℕ × ℕ))
      (acc : List (List (Option ℝ)) × List ((ℕ × ℕ) × List ℕ))
      (i' j' : ℕ),
      (∀ p ∈ rows, i' ≠ p.1) →
      getCell (outerFold up sP sD targets rows acc).1 i' j'
        = getCell acc.1 i' j' := by
  intro rows
  induction rows with
  | nil => intro acc i' j' _; rfl
  | cons p rest ih =>
    intro acc i' j' h
    rw [outerFold_cons]
    rw [ih _ i' j' (fun q hq => h q (List.mem_cons_of_mem _ hq))]
    exact innerFold_untouched up sP sD p.1 p.2 targets acc i' j'
      (Or.inl (h p (List.mem_cons_self _ _)))

theorem outerFold_hit (up : Bool)
    (sP : ℕ → ℕ → Option (List ℕ × Option ℝ))
    (sD : ℕ → ℕ → Option (Option ℝ)) (targets : List (ℕ × ℕ)) {n : ℕ} :
    ∀ (rows : List (ℕ × ℕ))
      (acc : List (List (Option ℝ)) × List ((ℕ × ℕ) × List ℕ))
      (i' s' j' t' : ℕ),
      (rows.map Prod.fst).Nodup → (i', s') ∈ rows →
      (targets.map Prod.fst).Nodup → (j', t') ∈ targets →
      MatShape acc.1 n → i' < n → j' < n →
      getCell (outerFold up sP sD targets rows acc).1 i' j'
        = if i' = j' then getCell acc.1 i' j'
          else pairVal up sP sD s' t' (getCell acc.1 i' j') := by
  intro rows
  induction rows with
  | nil => intro acc i' s' j' t' _ hmem; simp at hmem
  | cons p rest ih =>
    obtain ⟨i0, s0⟩ := p
    intro acc i' s' j' t' hnd hmem hndT hmemT hM hi hj
    rw [outerFold_cons]
    simp only [List.map_cons, List.nodup_cons] at hnd
    rcases List.mem_cons.1 hmem with heq | hmem'
    · have h1 : i' = i0 := congrArg Prod.fst heq
      have h2 : s' = s0 := congrArg Prod.snd heq
      subst h1
      subst h2
      have hrest : ∀ q ∈ rest, i' ≠ q.1 := fun q hq hc =>
        hnd.1 (hc ▸ List.mem_map_of_mem Prod.fst hq)
      rw [outerFold_untouched up sP sD targets rest _ i' j' hrest]
      exact innerFold_hit up sP sD i' s' targets acc j' t' hndT hmemT hM hi hj
    · have hne : i' ≠ i0 := fun hc =>
        hnd.1 (hc ▸ List.mem_map_of_mem Prod.fst hmem')
      have hstep : getCell (innerFold up sP sD targets i0 s0 acc).1 i' j'
          = getCell acc.1 i' j' :=
        innerFold_untouched up sP sD i0 s0 targets acc i' j' (Or.inl hne)
      rw [ih _ i' s' j' t' hnd.2 hmem' hndT hmemT
        (innerFold_shape up sP sD i0 s0 targets acc hM) hi hj, hstep]

theorem costLoop_getCell (up : Bool)
    (sP : ℕ → ℕ → Option (List ℕ × Option ℝ))
    (sD : ℕ → ℕ → Option (Option ℝ)) (unique : List ℕ) (i j : ℕ)
    (hi : i < unique.length) (hj : j < unique.length) :
    getCell (costLoop up sP sD unique).1 i j
      = if i = j then some (0:ℝ)
        else pairVal up sP sD (unique.get ⟨i, hi⟩) (unique.get ⟨j, hj⟩)
          none := by
  rw [costLoop_eq_folds]
  have hnd : (unique.enum.map Prod.fst).Nodup := by
    rw [List.enum_map_fst]; exact List.nodup_range _
  have hleni : i < unique.enum.length := by simpa using hi
  have hlenj : j < unique.enum.length := by simpa using hj
  have hmemi : (i, unique.get ⟨i, hi⟩) ∈ unique.enum := by
    have : unique.enum.get ⟨i, hleni⟩ = (i, unique.get ⟨i, hi⟩) := by
      simp [List.getElem_enum]
    rw [← this]
    exact List.get_mem _ _ _
  have hmemj : (j, unique.get ⟨j, hj⟩) ∈ unique.enum := by
    have : unique.enum.get ⟨j, hlenj⟩ = (j, unique.get ⟨j, hj⟩) := by
      simp [List.getElem_enum]
    rw [← this]
    exact List.get_mem _ _ _
  rw [outerFold_hit up sP sD unique.enum unique.enum
    (initMatrix unique.length, []) i (unique.get ⟨i, hi⟩) j
    (unique.get ⟨j, hj⟩) hnd hmemi hnd hmemj (initMatrix_shape _) hi hj]
  rw [getCell_initMatrix _ i j hi hj]
  by_cases hij : i = j
  · rw [if_pos hij, if_pos hij, if_pos hij]
  · rw [if_neg hij, if_neg hij, if_neg hij]

theorem costLoop_shape (up : Bool)
    (sP : ℕ → ℕ → Option (List ℕ × Option ℝ))
    (sD : ℕ → ℕ → Option (Option ℝ)) (unique : List ℕ) :
    MatShape (costLoop up sP sD unique).1 unique.length := by
  rw [costLoop_eq_folds]
  have : ∀ (rows : List (ℕ × ℕ))
      (acc : List (List (Option ℝ)) × List ((ℕ × ℕ) × List ℕ)),
      MatShape acc.1 unique.length →
      MatShape (outerFold up sP sD unique.enum rows acc).1 unique.length := by
    intro rows
    induction rows with
    | nil => intro acc h; exact h
    | cons p rest ih =>
      intro acc h
      rw [outerFold_cons]
      exact ih _ (innerFold_shape up sP sD p.1 p.2 unique.enum acc h)
  exact this unique.enum _ (initMatrix_shape _)

theorem validate_routes_feasible (routes : List (Route α))
    (vehicles : List (Vehicle α)) (r : Route α)
    (hr : r ∈ validate_routes routes vehicles)
    (hf : r.is_feasible = true) :
    ∃ v, vehicles.find? (fun v => v.id == r.vehicle_id) = some v ∧
      (r.deliveries.map (fun d => d.weight)).sum ≤ v.capacity := by
  rw [validate_routes] at hr
  obtain ⟨r0, _, hres⟩ := List.mem_map.1 hr
  cases hfind : vehicles.find? (fun v => v.id == r0.vehicle_id) with
  | none =>
    simp only [hfind] at hres
    rw [← hres] at hf
    simp at hf
  | some v =>
    simp only [hfind] at hres
    by_cases hcap : (r0.deliveries.map (fun d => d.weight)).sum > v.capacity
    · rw [if_pos hcap] at hres
      rw [← hres] at hf
      simp at hf
    · rw [if_neg hcap] at hres
      rw [← hres]
      exact ⟨v, hfind, le_of_not_lt hcap⟩


theorem minByCost_mem (mgr : AllocManager) (r : AllocationRequest) :
    ∀ (rest : List (Vehicle ℝ)) (best : Vehicle ℝ),
      minByCost mgr r best rest ∈ best :: rest := by
  intro rest
  induction rest with
  | nil => intro best; simp [minByCost]
  | cons v vs ih =>
    intro best
    rw [minByCost]
    rcases List.mem_cons.1 (ih _) with h | h
    · rw [h]
      by_cases hc : ltOptCost (calculate_allocation_cost mgr v r)
          (calculate_allocation_cost mgr best r)
      · simp [hc]
      · simp [hc]
    · simp [h]

theorem is_vehicle_available_cap {mgr : AllocManager} {v : Vehicle ℝ}
    {r : AllocationRequest} (h : is_vehicle_available mgr v r = true) :
    v.current_load + r.delivery_request.weight ≤ v.capacity := by
  rw [is_vehicle_available] at h
  by_cases hc : v.current_load + r.delivery_request.weight > v.capacity
  · rw [if_pos hc] at h
    exact absurd h (by simp)
  · exact le_of_not_lt hc

theorem find_available_spec {mgr : AllocManager} {r : AllocationRequest}
    {v : Vehicle ℝ} (h : v ∈ find_available_vehicles mgr r) :
    v ∈ mgr.vehicles.map Prod.snd ∧ is_vehicle_available mgr v r = true := by
  rw [find_available_vehicles] at h
  exact ⟨(List.mem_filter.1 h).1, (List.mem_filter.1 h).2⟩

theorem assoc_key_unique {γ : Type} {l : List (ℕ × γ)}
    (h : (l.map Prod.fst).Nodup) {p q : ℕ × γ} (hp : p ∈ l) (hq : q ∈ l)
    (heq : p.1 = q.1) : p = q := by
  induction l with
  | nil => simp at hp
  | cons x t ih =>
    simp only [List.map_cons, List.nodup_cons] at h
    rcases List.mem_cons.1 hp with hp' | hp' <;>
      rcases List.mem_cons.1 hq with hq' | hq'
    · rw [hp', hq']
    · exfalso
      apply h.1
      have hmem : q.1 ∈ t.map Prod.fst := List.mem_map_of_mem Prod.fst hq'
      rwa [← heq, hp'] at hmem
    · exfalso
      apply h.1
      have hmem : p.1 ∈ t.map Prod.fst := List.mem_map_of_mem Prod.fst hp'
      rwa [heq, hq'] at hmem
    · exact ih h.2 hp' hq'

theorem map_fst_of_fst_preserving {γ : Type} (l : List (ℕ × γ))
    (f : ℕ × γ → ℕ × γ) (hf : ∀ p, (f p).1 = p.1) :
    (l.map f).map Prod.fst = l.map Prod.fst := by
  rw [List.map_map]
  exact List.map_congr_left (fun p _ => hf p)

theorem activeSum_nonneg {allocs : List (ℕ × VehicleAllocation)}
    (hw : ∀ q ∈ allocs, 0 ≤ q.2.allocation_request.delivery_request.weight)
    (vid : ℕ) : 0 ≤ activeSum allocs vid := by
  refine List.sum_nonneg ?_
  intro x hx
  obtain ⟨q, hq, hqx⟩ := List.mem_map.1 hx
  rw [← hqx]
  exact hw q (List.mem_filter.1 hq).1

theorem activeSum_append_active (allocs : List (ℕ × VehicleAllocation))
    (k vid : ℕ) (a : VehicleAllocation) (ha : a.status ≠ "cancelled") :
    activeSum (allocs ++ [(k, a)]) vid
      = activeSum allocs vid
        + (if a.vehicle_id = vid then
            a.allocation_request.delivery_request.weight else 0) := by
  rw [activeSum, activeSum, List.filter_append]
  by_cases hv : a.vehicle_id = vid
  · have hb : (a.status == "cancelled") = false := by simp [ha]
    have hv' : (a.vehicle_id == vid) = true := by simp [hv]
    have hfil : List.filter (fun q =>
        q.2.vehicle_id == vid && !(q.2.status == "cancelled")) [(k, a)]
        = [(k, a)] := by
      simp [List.filter, hv', hb]
    rw [hfil, if_pos hv, List.map_append, List.sum_append]
    simp
  · have hv' : (a.vehicle_id == vid) = false := by simp [hv]
    have hfil : List.filter (fun q =>
        q.2.vehicle_id == vid && !(q.2.status == "cancelled")) [(k, a)]
        = [] := by
      simp [List.filter, hv']
    rw [hfil, if_neg hv]
    simp

theorem activeSum_cons (x : ℕ × VehicleAllocation)
    (l : List (ℕ × VehicleAllocation)) (vid : ℕ) :
    activeSum (x :: l) vid
      = (if x.2.vehicle_id = vid ∧ x.2.status ≠ "cancelled"
         then x.2.allocation_request.delivery_request.weight else 0)
        + activeSum l vid := by
  by_cases h1 : x.2.vehicle_id = vid <;> by_cases h2 : x.2.status = "cancelled"
  · have e1 : (x.2.vehicle_id == vid) = true := by simp [h1]
    have e2 : (x.2.status == "cancelled") = true := by simp [h2]
    simp [activeSum, List.filter_cons, e1, e2, h2]
  · have e1 : (x.2.vehicle_id == vid) = true := by simp [h1]
    have e2 : (x.2.status == "cancelled") = false := by simp [h2]
    simp [activeSum, List.filter_cons, e1, e2, h1, h2]
  · have e1 : (x.2.vehicle_id == vid) = false := by simp [h1]
    simp [activeSum, List.filter_cons, e1, h1]
  · have e1 : (x.2.vehicle_id == vid) = false := by simp [h1]
    simp [activeSum, List.filter_cons, e1, h1]

theorem activeSum_cancel :
    ∀ (allocs : List (ℕ × VehicleAllocation)) (i vid : ℕ),
      (allocs.map Prod.fst).Nodup →
      ∀ {pa : ℕ × VehicleAllocation}, pa ∈ allocs → pa.1 = i →
      pa.2.status ≠ "cancelled" →
      activeSum (allocs.map (fun p =>
          if p.1 = i then (p.1, { p.2 with status := "cancelled" })
          else p)) vid
        = activeSum allocs vid
          - (if pa.2.vehicle_id = vid then
              pa.2.allocation_request.delivery_request.weight else 0) := by
  intro allocs
  induction allocs with
  | nil => intro i vid _ pa hpa; simp at hpa
  | cons x t ih =>
    intro i vid hnd pa hpa hpi hst
    simp only [List.map_cons, List.nodup_cons] at hnd
    rcases List.mem_cons.1 hpa with hx | hx
    · cases hx
      rw [List.map_cons, if_pos hpi]
      have htmap : t.map (fun p =>
          if p.1 = i then (p.1, { p.2 with status := "cancelled" })
          else p) = t := by
        have : ∀ p ∈ t, (if p.1 = i then
            (p.1, { p.2 with status := "cancelled" }) else p) = p := by
          intro p hp
          refine if_neg ?_
          intro hc
          exact hnd.1 (by rw [hpi, ← hc]; exact List.mem_map_of_mem Prod.fst hp)
        rw [List.map_congr_left this, List.map_id']
      rw [htmap, activeSum_cons, activeSum_cons]
      have hfalse : ¬((x.1, { x.2 with status := "cancelled" }).2.vehicle_id = vid
          ∧ (x.1, { x.2 with status := "cancelled" }).2.status ≠ "cancelled") := by
        intro hcon
        exact hcon.2 rfl
      rw [if_neg hfalse]
      by_cases hv : x.2.vehicle_id = vid
      · rw [if_pos ⟨hv, hst⟩, if_pos hv]
        ring
      · rw [if_neg (fun hcon => hv hcon.1), if_neg hv]
        ring
    · have hxne : x.1 ≠ i := by
        intro hc
        exact hnd.1 (by rw [hc, ← hpi]; exact List.mem_map_of_mem Prod.fst hx)
      rw [List.map_cons, if_neg hxne, activeSum_cons, activeSum_cons,
        ih i vid hnd.2 hx hpi hst]
      ring

theorem alloc_step (mgr : AllocManager) (r : AllocationRequest)
    (hInv : MgrInv mgr) (hw : 0 ≤ r.delivery_request.weight) :
    MgrInv (allocate_vehicle_greedy mgr r).2 ∧
    ∀ q ∈ (allocate_vehicle_greedy mgr r).2.allocations,
      q ∈ mgr.allocations ∨ q.2.status = "pending" := by
  obtain ⟨hvnd, hvid, hidle, hand, hwts, hveh⟩ := hInv
  cases hav : find_available_vehicles mgr r with
  | nil =>
    have hres : (allocate_vehicle_greedy mgr r).2 = mgr := by
      rw [allocate_vehicle_greedy, hav]
    rw [hres]
    exact ⟨⟨hvnd, hvid, hidle, hand, hwts, hveh⟩, fun q hq => Or.inl hq⟩
  | cons v0 rest =>
    have hres : (allocate_vehicle_greedy mgr r).2
        = { mgr with
            vehicles := mgr.vehicles.map (fun p =>
              if p.1 = (minByCost mgr r v0 rest).id then
                (p.1, { p.2 with current_load :=
                  p.2.current_load + r.delivery_request.weight })
              else p)
            allocations := mgr.allocations ++
              [(mgr.allocations.length + 1,
                { vehicle_id := (minByCost mgr r v0 rest).id,
                  client := r.client, allocation_request := r,
                  status := "pending" })] } := by
      simp only [allocate_vehicle_greedy, hav]
    have hmem : minByCost mgr r v0 rest ∈ find_available_vehicles mgr r := by
      rw [hav]; exact minByCost_mem mgr r rest v0
    obtain ⟨hbv, hbavail⟩ := find_available_spec hmem
    obtain ⟨pb, hpb, hpb2⟩ := List.mem_map.1 hbv
    have hpb1 : pb.1 = (minByCost mgr r v0 rest).id := by
      rw [hvid pb hpb, hpb2]
    rw [hres]
    set alloc : VehicleAllocation :=
      { vehicle_id := (minByCost mgr r v0 rest).id, client := r.client,
        allocation_request := r, status := "pending" } with halloc
    have hpend : alloc.status ≠ "cancelled" := by
      show ("pending" : String) ≠ "cancelled"
      decide
    have hvehid : alloc.vehicle_id = (minByCost mgr r v0 rest).id := by
      rw [halloc]
    have hreq : alloc.allocation_request = r := by rw [halloc]
    have hpres : ∀ p : ℕ × Vehicle ℝ,
        ((fun p => if p.1 = (minByCost mgr r v0 rest).id then
            (p.1, { p.2 with current_load :=
              p.2.current_load + r.delivery_request.weight })
          else p) p).1 = p.1 := by
      intro p
      by_cases h : p.1 = (minByCost mgr r v0 rest).id <;> simp [h]
    refine ⟨⟨?_, ?_, ?_, ?_, ?_, ?_⟩, ?_⟩
    · rw [map_fst_of_fst_preserving _ _ hpres]
      exact hvnd
    · intro p' hp'
      obtain ⟨p0, hp0, hp0e⟩ := List.mem_map.1 hp'
      by_cases h : p0.1 = (minByCost mgr r v0 rest).id
      · rw [← hp0e, if_pos h]
        exact hvid p0 hp0
      · rw [← hp0e, if_neg h]
        exact hvid p0 hp0
    · intro q hq
      rw [List.length_append]
      rcases List.mem_append.1 hq with h | h
      · exact le_trans (hidle q h) (Nat.le_add_right _ _)
      · simp only [List.mem_singleton] at h
        rw [h]
        simp
    · rw [List.map_append, List.nodup_append]
      refine ⟨hand, List.nodup_singleton _, ?_⟩
      intro a ha hb
      simp only [List.map_cons, List.map_nil, List.mem_singleton] at hb
      obtain ⟨q, hq, hqa⟩ := List.mem_map.1 ha
      have := hidle q hq
      omega
    · intro q hq
      rcases List.mem_append.1 hq with h | h
      · exact hwts q h
      · simp only [List.mem_singleton] at h
        rw [h]
        exact hw
    · intro p' hp'
      obtain ⟨p0, hp0, hp0e⟩ := List.mem_map.1 hp'
      by_cases h : p0.1 = (minByCost mgr r v0 rest).id
      · have hp0pb : p0 = pb := assoc_key_unique hvnd hp0 hpb (by rw [h, hpb1])
        have hload : p0.2 = minByCost mgr r v0 rest := by rw [hp0pb, hpb2]
        rw [← hp0e, if_pos h]
        constructor
        · simp only []
          rw [hload]
          exact is_vehicle_available_cap hbavail
        · simp only []
          rw [activeSum_append_active _ _ _ _ hpend, hvehid, hreq,
            if_pos h.symm, hload]
          have hle := (hveh p0 hp0).2
          rw [hload] at hle
          exact add_le_add_right hle _
      · rw [← hp0e, if_neg h]
        constructor
        · exact (hveh p0 hp0).1
        · rw [activeSum_append_active _ _ _ _ hpend, hvehid,
            if_neg (fun hc => h (by rw [hc]))]
          simpa using (hveh p0 hp0).2
    · intro q hq
      rcases List.mem_append.1 hq with hold | hnew
      · exact Or.inl hold
      · simp only [List.mem_singleton] at hnew
        rw [hnew]
        exact Or.inr rfl

theorem cancel_step (mgr : AllocManager) (i : ℕ) (hInv : MgrInv mgr)
    (hok : ∀ q ∈ mgr.allocations, q.1 = i → ¬q.2.status = "cancelled") :
    MgrInv (cancel_allocation mgr i).2 ∧
    ∀ q ∈ (cancel_allocation mgr i).2.allocations,
      q ∈ mgr.allocations ∨ q.1 = i := by
  obtain ⟨hvnd, hvid, hidle, hand, hwts, hveh⟩ := hInv
  cases hfind : mgr.allocations.find? (fun p => p.1 == i) with
  | none =>
    have hres : (cancel_allocation mgr i).2 = mgr := by
      rw [cancel_allocation, hfind]
    rw [hres]
    exact ⟨⟨hvnd, hvid, hidle, hand, hwts, hveh⟩, fun q hq => Or.inl hq⟩
  | some pa =>
    have hpamem : pa ∈ mgr.allocations := List.mem_of_find?_eq_some hfind
    have hpai : pa.1 = i := by
      have := List.find?_some hfind
      simpa using this
    have hst : ¬pa.2.status = "cancelled" := hok pa hpamem hpai
    have hpaw : 0 ≤ pa.2.allocation_request.delivery_request.weight :=
      hwts pa hpamem
    have hres : (cancel_allocation mgr i).2
        = { mgr with
            vehicles := mgr.vehicles.map (fun p =>
              if p.1 = pa.2.vehicle_id then
                (p.1, { p.2 with current_load := p.2.current_load
                  - pa.2.allocation_request.delivery_request.weight })
              else p)
            allocations := mgr.allocations.map (fun p =>
              if p.1 = i then (p.1, { p.2 with status := "cancelled" })
              else p) } := by
      simp only [cancel_allocation, hfind]
    rw [hres]
    have hpres : ∀ p : ℕ × Vehicle ℝ,
        ((fun p => if p.1 = pa.2.vehicle_id then
            (p.1, { p.2 with current_load := p.2.current_load
              - pa.2.allocation_request.delivery_request.weight })
          else p) p).1 = p.1 := by
      intro p
      by_cases h : p.1 = pa.2.vehicle_id <;> simp [h]
    have hapres : ∀ p : ℕ × VehicleAllocation,
        ((fun p => if p.1 = i then (p.1, { p.2 with status := "cancelled" })
          else p) p).1 = p.1 := by
      intro p
      by_cases h : p.1 = i <;> simp [h]
    refine ⟨⟨?_, ?_, ?_, ?_, ?_, ?_⟩, ?_⟩
    · rw [map_fst_of_fst_preserving _ _ hpres]
      exact hvnd
    · intro p' hp'
      obtain ⟨p0, hp0, hp0e⟩ := List.mem_map.1 hp'
      by_cases h : p0.1 = pa.2.vehicle_id
      · rw [← hp0e, if_pos h]
        exact hvid p0 hp0
      · rw [← hp0e, if_neg h]
        exact hvid p0 hp0
    · intro q hq
      obtain ⟨q0, hq0, hq0e⟩ := List.mem_map.1 hq
      rw [List.length_map]
      have h1 : q.1 = q0.1 := by rw [← hq0e]; exact hapres q0
      rw [h1]
      exact hidle q0 hq0
    · rw [map_fst_of_fst_preserving _ _ hapres]
      exact hand
    · intro q hq
      obtain ⟨q0, hq0, hq0e⟩ := List.mem_map.1 hq
      by_cases h : q0.1 = i
      · rw [← hq0e, if_pos h]
        exact hwts q0 hq0
      · rw [← hq0e, if_neg h]
        exact hwts q0 hq0
    · intro p' hp'
      obtain ⟨p0, hp0, hp0e⟩ := List.mem_map.1 hp'
      have hsum := activeSum_cancel mgr.allocations i p0.1 hand hpamem hpai hst
      by_cases h : p0.1 = pa.2.vehicle_id
      · rw [← hp0e, if_pos h]
        refine ⟨?_, ?_⟩
        · simp only []
          calc p0.2.current_load - pa.2.allocation_request.delivery_request.weight
              ≤ p0.2.current_load := by linarith
            _ ≤ p0.2.capacity := (hveh p0 hp0).1
        · simp only []
          rw [hsum, if_pos h.symm]
          have := (hveh p0 hp0).2
          linarith
      · rw [← hp0e, if_neg h]
        refine ⟨(hveh p0 hp0).1, ?_⟩
        rw [hsum, if_neg (fun hc => h hc.symm)]
        have := (hveh p0 hp0).2
        linarith
    · intro q hq
      obtain ⟨q0, hq0, hq0e⟩ := List.mem_map.1 hq
      by_cases h : q0.1 = i
      · rw [← hq0e, if_pos h]
        exact Or.inr h
      · rw [← hq0e, if_neg h]
        exact Or.inl hq0

theorem runAllocOps_inv :
    ∀ (ops : List AllocOp) (mgr : AllocManager),
      MgrInv mgr →
      (cancelIds ops).Nodup →
      (∀ i ∈ cancelIds ops, ∀ q ∈ mgr.allocations,
        q.1 = i → ¬q.2.status = "cancelled") →
      (∀ r, AllocOp.alloc r ∈ ops → 0 ≤ r.delivery_request.weight) →
      MgrInv (runAllocOps mgr ops) := by
  intro ops
  induction ops with
  | nil => intro mgr h _ _ _; exact h
  | cons op rest ih =>
    intro mgr hInv hnd hok hw
    cases op with
    | alloc r =>
      rw [runAllocOps]
      have hids : cancelIds (AllocOp.alloc r :: rest) = cancelIds rest := rfl
      obtain ⟨hInv', hstat⟩ :=
        alloc_step mgr r hInv (hw r (List.mem_cons_self _ _))
      refine ih _ hInv' ?_ ?_ ?_
      · rw [hids] at hnd
        exact hnd
      · intro i hi q hq hqi
        rcases hstat q hq with hqold | hqpend
        · exact hok i (by rw [hids]; exact hi) q hqold hqi
        · rw [hqpend]
          decide
      · intro r' hr'
        exact hw r' (List.mem_cons_of_mem _ hr')
    | cancel i =>
      rw [runAllocOps]
      have hids : cancelIds (AllocOp.cancel i :: rest) = i :: cancelIds rest := rfl
      rw [hids] at hnd
      obtain ⟨hInv', hstat⟩ := cancel_step mgr i hInv
        (hok i (by rw [hids]; exact List.mem_cons_self _ _))
      refine ih _ hInv' ?_ ?_ ?_
      · exact (List.nodup_cons.1 hnd).2
      · intro i' hi' q hq hqi'
        rcases hstat q hq with hqold | hqkey
        · exact hok i' (by rw [hids]; exact List.mem_cons_of_mem _ hi') q
            hqold hqi'
        · exfalso
          have hii : i' = i := by rw [← hqi', hqkey]
          rw [hii] at hi'
          exact (List.nodup_cons.1 hnd).1 hi'
      · intro r' hr'
        exact hw r' (List.mem_cons_of_mem _ hr')

theorem find_path_dijkstra_no_path {α : Type} [LinearOrderedField α]
    (G : Graph α) (s t : ℕ) (hst : s ≠ t)
    (h : ¬G.hasNode s ∨ ¬G.hasNode t ∨ ¬Reach G s t) :
    find_path_dijkstra G s t = ([], none) := by
  simp only [find_path_dijkstra]
  rw [if_neg hst]
  by_cases habs : ¬G.hasNode s ∨ ¬G.hasNode t
  · rw [if_pos habs]
  · rw [if_neg habs]
    push_neg at habs
    have hreach : ¬Reach G s t := by
      rcases h with h | h | h
      · exact absurd habs.1 h
      · exact absurd habs.2 h
      · exact h
    have hinv := dijkstraLoop_reach G s t (searchFuel G) [(0, s)]
      { dist := fun n => if n = s then some 0 else none
        pred := fun _ => none, visited := [] }
      (by
        intro n hn
        by_cases hn' : n = s
        · rw [hn']
          exact Relation.ReflTransGen.refl
        · simp [hn'] at hn)
      (by
        intro p hp
        simp only [List.mem_singleton] at hp
        rw [hp]
        exact Relation.ReflTransGen.refl)
    cases hval : (dijkstraLoop G t (searchFuel G) [(0, s)]
        { dist := fun n => if n = s then some 0 else none
          pred := fun _ => none, visited := [] }).dist t with
    | none => rfl
    | some d =>
      exact absurd (hinv t (by rw [hval]; exact Option.some_ne_none d)) hreach

omit [LinearOrderedField α] in
theorem get_node_coordinates_of_noCoord {G : Graph α} {n : ℕ}
    (h : noCoordAttrs (G.nodeData n)) :
    get_node_coordinates G n = (0, 0) := by
  obtain ⟨h1, h2, h3, h4, h5, h6⟩ := h
  rw [get_node_coordinates]
  rw [if_neg (by rw [h1]; simp), if_neg (by rw [h3]; simp),
    if_neg (by rw [h5]; simp)]
  norm_num

omit [LinearOrderedField α] in
theorem calculate_heuristic_of_noCoord {G : Graph α} {n m : ℕ}
    (hn : noCoordAttrs (G.nodeData n)) (hm : noCoordAttrs (G.nodeData m)) :
    calculate_heuristic G n m = 0 := by
  rw [calculate_heuristic, get_node_coordinates_of_noCoord hn,
    get_node_coordinates_of_noCoord hm]
  exact haversine_distance_self 0 0

theorem get_shortest_distance_nonneg {α : Type} [LinearOrderedField α]
    (G : Graph α) (s t : ℕ) (hG : nonnegWeights G) {d : α}
    (h : get_shortest_distance G s t = some d) : 0 ≤ d := by
  rw [get_shortest_distance] at h
  have heq : find_path_dijkstra G s t
      = ((find_path_dijkstra G s t).1, some d) := by
    rw [← h]
  exact find_path_dijkstra_nonneg G s t hG heq

theorem get_shortest_distance_a_star_nonneg (G : Graph ℝ) (s t : ℕ)
    (hG : nonnegWeights G) {d : ℝ}
    (h : get_shortest_distance_a_star G s t = some d) : 0 ≤ d := by
  rw [get_shortest_distance_a_star] at h
  have heq : find_path_a_star G s t
      = ((find_path_a_star G s t).1, some d) := by
    rw [← h]
  exact find_path_a_star_nonneg G s t hG heq

theorem getCell_oob {M : List (List (Option ℝ))} {n : ℕ}
    (hM : MatShape M n) {i j : ℕ} (h : ¬(i < n ∧ j < n)) :
    getCell M i j = none := by
  rw [getCell]
  by_cases hi : i < n
  · have hj : ¬j < n := fun hj => h ⟨hi, hj⟩
    have hlen : (M.getD i []).length ≤ j := by
      rw [matShape_getD_length hM hi]; omega
    rw [List.getD_eq_default _ _ hlen]
  · have hlen : M.length ≤ i := by rw [hM.1]; omega
    rw [List.getD_eq_default _ _ hlen]
    simp

theorem pairVal_none_nonneg {up : Bool}
    {sP : ℕ → ℕ → Option (List ℕ × Option ℝ)}
    {sD : ℕ → ℕ → Option (Option ℝ)} {s t : ℕ} {x : ℝ}
    (hP : ∀ s t p d, sP s t = some (p, some d) → 0 ≤ d)
    (hD : ∀ s t d, sD s t = some (some d) → 0 ≤ d)
    (h : pairVal up sP sD s t none = some x) : 0 ≤ x := by
  rw [pairVal] at h
  cases up with
  | true =>
    simp only [if_true] at h
    cases hsp : sP s t with
    | none => simp only [hsp] at h; exact absurd h (by simp)
    | some pd =>
      simp only [hsp] at h
      by_cases hp : pd.1 ≠ []
      · rw [if_pos hp] at h
        refine hP s t pd.1 x ?_
        rw [hsp, ← h]
      · rw [if_neg hp] at h
        exact absurd h (by simp)
  | false =>
    simp only [Bool.false_eq_true, if_false] at h
    cases hsd : sD s t with
    | none => simp only [hsd] at h; exact absurd h (by simp)
    | some dist =>
      simp only [hsd] at h
      by_cases hd : dist ≠ none
      · rw [if_pos hd] at h
        refine hD s t x ?_
        rw [hsd, h]
      · rw [if_neg hd] at h
        exact absurd h (by simp)

theorem costLoop_matrix_props (up : Bool)
    (sP : ℕ → ℕ → Option (List ℕ × Option ℝ))
    (sD : ℕ → ℕ → Option (Option ℝ)) (unique : List ℕ)
    (hP : ∀ s t p d, sP s t = some (p, some d) → 0 ≤ d)
    (hD : ∀ s t d, sD s t = some (some d) → 0 ≤ d) :
    MatShape (costLoop up sP sD unique).1 unique.length ∧
    (∀ i, i < unique.length →
      getCell (costLoop up sP sD unique).1 i i = some 0) ∧
    (∀ i j x, getCell (costLoop up sP sD unique).1 i j = some x → 0 ≤ x) := by
  refine ⟨costLoop_shape up sP sD unique, ?_, ?_⟩
  · intro i hi
    rw [costLoop_getCell up sP sD unique i i hi hi, if_pos rfl]
  · intro i j x hx
    by_cases hb : i < unique.length ∧ j < unique.length
    · rw [costLoop_getCell up sP sD unique i j hb.1 hb.2] at hx
      by_cases hij : i = j
      · rw [if_pos hij] at hx
        exact le_of_eq (Option.some.inj hx)
      · rw [if_neg hij] at hx
        exact pairVal_none_nonneg hP hD hx
    · rw [getCell_oob (costLoop_shape up sP sD unique) hb] at hx
      exact absurd hx (by simp)

theorem compute_cost_matrix_props (G : Graph ℝ) (nodes : List ℕ)
    (algorithm : String) (up : Bool) (M : CostMatrix)
    (hG : nonnegWeights G)
    (h : compute_cost_matrix G nodes algorithm up = .ok M) :
    MatShape M.matrix (dedupFirst nodes).length ∧
    (∀ i, i < (dedupFirst nodes).length → getCell M.matrix i i = some 0) ∧
    (∀ i j x, getCell M.matrix i j = some x → 0 ≤ x) := by
  rw [compute_cost_matrix] at h
  by_cases h0 : nodes = []
  · rw [if_pos h0] at h
    have hM := Except.ok.inj h
    subst h0
    rw [← hM]
    refine ⟨⟨rfl, by intro r hr; exact absurd hr (by simp)⟩, ?_, ?_⟩
    · intro i hi
      exact absurd hi (by simp [dedupFirst])
    · intro i j x hx
      exact absurd hx (by simp [getCell])
  · rw [if_neg h0] at h
    simp only [] at h
    by_cases hA : strLower algorithm = "a_star"
    · rw [if_pos hA] at h
      have hM := Except.ok.inj h
      have hmat : M.matrix
          = (costLoop up (fun s t => some (find_path_a_star G s t))
              (fun s t => some (get_shortest_distance_a_star G s t))
              (dedupFirst nodes)).1 := by
        rw [← hM]
      rw [hmat]
      refine costLoop_matrix_props up _ _ (dedupFirst nodes) ?_ ?_
      · intro s t p d hd
        have hpd : find_path_a_star G s t = (p, some d) := Option.some.inj hd
        exact find_path_a_star_nonneg G s t hG hpd
      · intro s t d hd
        exact get_shortest_distance_a_star_nonneg G s t hG (Option.some.inj hd)
    · rw [if_neg hA] at h
      by_cases hDj : strLower algorithm = "dijkstra"
      · rw [if_pos hDj] at h
        have hM := Except.ok.inj h
        have hmat : M.matrix
            = (costLoop up (fun s t => some (find_path_dijkstra G s t))
                (fun s t => some (get_shortest_distance G s t))
                (dedupFirst nodes)).1 := by
          rw [← hM]
        rw [hmat]
        refine costLoop_matrix_props up _ _ (dedupFirst nodes) ?_ ?_
        · intro s t p d hd
          have hpd : find_path_dijkstra G s t = (p, some d) := Option.some.inj hd
          exact find_path_dijkstra_nonneg G s t hG hpd
        · intro s t d hd
          exact get_shortest_distance_nonneg G s t hG (Option.some.inj hd)
      · rw [if_neg hDj] at h
        exact absurd h (by simp)

end Theorems

/-! The specification claims. -/

/-- C1 (amended): the spec asserts that on every graph with non-negative
weights the A* distance equals the Dijkstra distance; with the
repository's haversine heuristic this fails, and the equality does hold
exactly when the heuristic towards the goal vanishes (for instance when
the nodes carry no coordinates, where both engines run identically). -/
theorem claim_C1 (G : Graph ℝ) (s e : ℕ)
    (h0 : ∀ n, calculate_heuristic G n e = 0) :
    (find_path_a_star G s e).2 = (find_path_dijkstra G s e).2 := by
  rw [astar_eq_dijkstra_of_zero_heuristic G s e h0]

/-- C1 witness: on the coordinate-free scenario graph the two engines
agree on the 0→3 distance. -/
theorem claim_C1_witness :
    (find_path_a_star (scenGraph ℝ) 0 3).2
      = (find_path_dijkstra (scenGraph ℝ) 0 3).2 :=
  claim_C1 (scenGraph ℝ) 0 3 (fun _ =>
    calculate_heuristic_of_noCoord ⟨rfl, rfl, rfl, rfl, rfl, rfl⟩
      ⟨rfl, rfl, rfl, rfl, rfl, rfl⟩)

/-- C1 counterexample: `cexGraph` has non-negative weights, yet A* returns
distance 5 on the pair 0→2 while Dijkstra returns the true shortest
distance 2 — the haversine heuristic (meters over degree-scaled
coordinates) is not admissible for these edge lengths. -/
theorem claim_C1_cex :
    nonnegWeights cexGraph ∧
    (find_path_a_star cexGraph 0 2).2
      ≠ (find_path_dijkstra cexGraph 0 2).2 := by
  constructor
  · intro u pr hpr e he
    have hadj : cexGraph.adj u
        = if u = 0 then [(1, [⟨some 1, none⟩]), (2, [⟨some 5, none⟩])]
          else if u = 1 then [(2, [⟨some 1, none⟩])] else [] := rfl
    rw [hadj] at hpr
    split_ifs at hpr <;>
      simp only [List.mem_cons, List.not_mem_nil, or_false] at hpr
    · rcases hpr with h | h <;> subst h <;>
        simp only [List.mem_cons, List.not_mem_nil, or_false] at he <;>
        subst he <;>
        exact ⟨fun x hx => by rw [← Option.some.inj hx]; norm_num,
          fun x hx => Option.noConfusion hx⟩
    · subst hpr
      simp only [List.mem_cons, List.not_mem_nil, or_false] at he
      subst he
      exact ⟨fun x hx => by rw [← Option.some.inj hx]; norm_num,
        fun x hx => Option.noConfusion hx⟩
  · rw [cexGraph_astar_run, cexGraph_dijkstra_run]
    intro hc
    have := Option.some.inj hc
    norm_num at this

/-- C2 (amended): a node lacking every coordinate attribute is resolved
to the fallback coordinates `(0, 0)` — a graceful fallback, not a
failure — and when BOTH endpoints lack coordinates the heuristic for the
pair is 0 (the spec's claim that ONE missing endpoint suffices is
refuted by the counterexample). -/
theorem claim_C2 {α : Type} (G : Graph α) (n m : ℕ)
    (hn : noCoordAttrs (G.nodeData n)) (hm : noCoordAttrs (G.nodeData m)) :
    get_node_coordinates G n = (0, 0) ∧ calculate_heuristic G n m = 0 :=
  ⟨get_node_coordinates_of_noCoord hn, calculate_heuristic_of_noCoord hn hm⟩

/-- C2 witness: both claims evaluated on the coordinate-free scenario
graph at the pair 0→1. -/
theorem claim_C2_witness :
    get_node_coordinates (scenGraph ℝ) 0 = (0, 0) ∧
    calculate_heuristic (scenGraph ℝ) 0 1 = 0 :=
  claim_C2 (scenGraph ℝ) 0 1 ⟨rfl, rfl, rfl, rfl, rfl, rfl⟩
    ⟨rfl, rfl, rfl, rfl, rfl, rfl⟩

/-- C2 counterexample: in `cexGraph` node 1 has no coordinates but the
goal node 2 does, and the heuristic of the pair 1→2 is
`3185500 π ≠ 0`: one missing endpoint does not make the heuristic
degrade to 0. -/
theorem claim_C2_cex :
    noCoordAttrs (cexGraph.nodeData 1) ∧
    calculate_heuristic cexGraph 1 2 ≠ 0 := by
  refine ⟨⟨rfl, rfl, rfl, rfl, rfl, rfl⟩, ?_⟩
  rw [cex_heuristic_1_2]
  exact mul_ne_zero (by norm_num) Real.pi_ne_zero

/-- C3: on the two-node multigraph with parallel edges 0→1 of lengths 5
and 3, `find_path_dijkstra` relaxes with the parallel minimum 3 as
specified, but `get_all_shortest_distances` reports 1 — its per-edge
attribute lookup runs on the keyed edge dict, always falling back to the
default weight 1.0, so it does not take the minimum among parallels. -/
theorem claim_C3 :
    find_path_dijkstra parGraph 0 1 = ([0, 1], some 3) ∧
    get_all_shortest_distances parGraph 0 1 = some 1 ∧
    get_all_shortest_distances parGraph 0 1
      ≠ (find_path_dijkstra parGraph 0 1).2 := by
  have h1 : find_path_dijkstra parGraph 0 1 = ([0, 1], some 3) := by
    norm_num [find_path_dijkstra, parGraph, Graph.hasNode, searchFuel,
      show (4:ℕ) = 3+1 from rfl, show (3:ℕ) = 2+1 from rfl,
      show (2:ℕ) = 1+1 from rfl, show (1:ℕ) = 0+1 from rfl,
      dijkstraLoop, pqGet, pqMin, pqRemove, pairLt, dijkstraRelax,
      bestWeight, edgeAttrWeight, ltInf, reconstruct_path, predWalk,
      Option.some_ne_none]
  have h2 : get_all_shortest_distances parGraph 0 1 = some 1 := by
    norm_num [get_all_shortest_distances, parGraph, Graph.hasNode, searchFuel,
      show (4:ℕ) = 3+1 from rfl, show (3:ℕ) = 2+1 from rfl,
      show (2:ℕ) = 1+1 from rfl, show (1:ℕ) = 0+1 from rfl,
      allDistLoop, pqGet, pqMin, pqRemove, pairLt, allDistRelax, ltInf,
      List.cons_ne_nil]
  refine ⟨h1, h2, ?_⟩
  rw [h1, h2]
  intro hc
  have := Option.some.inj hc
  norm_num at this

/-- C4: for distinct nodes, a missing endpoint or the absence of any
usable connecting path makes `find_path_dijkstra` return the empty path
with infinite distance (`none`) and `get_shortest_distance` return
infinity; the engines never fail. -/
theorem claim_C4 {α : Type} [LinearOrderedField α] (G : Graph α)
    (s t : ℕ) (hst : s ≠ t)
    (h : ¬G.hasNode s ∨ ¬G.hasNode t ∨ ¬Reach G s t) :
    find_path_dijkstra G s t = ([], none) ∧
    get_shortest_distance G s t = none := by
  have h1 := find_path_dijkstra_no_path G s t hst h
  exact ⟨h1, by rw [get_shortest_distance, h1]⟩

/-- C4 witness: node 5 is absent from the two-node multigraph. -/
theorem claim_C4_witness :
    find_path_dijkstra parGraph 2 5 = ([], none) ∧
    get_shortest_distance parGraph 2 5 = none :=
  claim_C4 parGraph 2 5 (by decide) (Or.inl (by decide))

/-- C5: both engines short-circuit on `start = end`, returning the
singleton path with distance 0 before any node-membership check. -/
theorem claim_C5 {α : Type} [LinearOrderedField α] (G : Graph α) (n : ℕ)
    (H : Graph ℝ) (m : ℕ) :
    find_path_dijkstra G n n = ([n], some 0) ∧
    find_path_a_star H m m = ([m], some 0) := by
  constructor
  · simp [find_path_dijkstra]
  · simp [find_path_a_star]

/-- C6: the spec's concrete scenario: Dijkstra from 0 to 3 follows
[0, 1, 2, 3] with distance 23. -/
theorem claim_C6 :
    find_path_dijkstra (scenGraph ℚ) 0 3 = ([0, 1, 2, 3], some 23) := by
  norm_num [find_path_dijkstra, scenGraph, Graph.hasNode, searchFuel,
    show (9:ℕ) = 8+1 from rfl, show (8:ℕ) = 7+1 from rfl,
    show (7:ℕ) = 6+1 from rfl, show (6:ℕ) = 5+1 from rfl,
    show (5:ℕ) = 4+1 from rfl,
    show (4:ℕ) = 3+1 from rfl, show (3:ℕ) = 2+1 from rfl,
    show (2:ℕ) = 1+1 from rfl, show (1:ℕ) = 0+1 from rfl,
    dijkstraLoop, pqGet, pqMin, pqRemove, pairLt, dijkstraRelax,
    bestWeight, edgeAttrWeight, ltInf, reconstruct_path, predWalk,
    Option.some_ne_none]

/-- C7: a successful `compute_cost_matrix` on a non-negative-weight graph
yields a square matrix of side `|dedupFirst nodes|` with diagonal exactly
0 and no negative finite entry; moreover the loop fills each off-diagonal
cell purely from that pair's own query outcome applied to the initial
`+inf` cell — a failed pair leaves its cell at `+inf` (`none`) without
affecting any other cell. -/
theorem claim_C7 (G : Graph ℝ) (nodes : List ℕ) (algorithm : String)
    (up : Bool) (M : CostMatrix) (hG : nonnegWeights G)
    (h : compute_cost_matrix G nodes algorithm up = .ok M) :
    (MatShape M.matrix (dedupFirst nodes).length ∧
      (∀ i, i < (dedupFirst nodes).length →
        getCell M.matrix i i = some 0) ∧
      (∀ i j x, getCell M.matrix i j = some x → 0 ≤ x)) ∧
    (∀ (sP : ℕ → ℕ → Option (List ℕ × Option ℝ))
        (sD : ℕ → ℕ → Option (Option ℝ)) (unique : List ℕ) (i j : ℕ)
        (hi : i < unique.length) (hj : j < unique.length),
      getCell (costLoop up sP sD unique).1 i j
        = if i = j then some 0
          else pairVal up sP sD (unique.get ⟨i, hi⟩)
            (unique.get ⟨j, hj⟩) none) :=
  ⟨compute_cost_matrix_props G nodes algorithm up M hG h,
    fun sP sD unique i j hi hj => costLoop_getCell up sP sD unique i j hi hj⟩

/-- C7 witness: the duplicate-laden request `[0, 0]` on the empty graph
with the Dijkstra engine produces the 1×1 matrix `[[0]]`. -/
theorem claim_C7_witness :
    (MatShape (CostMatrix.mk [[some 0]] [(0, 0)] [0] []).matrix
        (dedupFirst [0, 0]).length ∧
      (∀ i, i < (dedupFirst [0, 0]).length →
        getCell (CostMatrix.mk [[some 0]] [(0, 0)] [0] []).matrix i i
          = some 0) ∧
      (∀ i j x,
        getCell (CostMatrix.mk [[some 0]] [(0, 0)] [0] []).matrix i j
          = some x → 0 ≤ x)) ∧
    (∀ (sP : ℕ → ℕ → Option (List ℕ × Option ℝ))
        (sD : ℕ → ℕ → Option (Option ℝ)) (unique : List ℕ) (i j : ℕ)
        (hi : i < unique.length) (hj : j < unique.length),
      getCell (costLoop false sP sD unique).1 i j
        = if i = j then some 0
          else pairVal false sP sD (unique.get ⟨i, hi⟩)
            (unique.get ⟨j, hj⟩) none) :=
  claim_C7 emptyGraphR [0, 0] "dijkstra" false
    (CostMatrix.mk [[some 0]] [(0, 0)] [0] [])
    (fun u pr hpr => absurd hpr (by simp [emptyGraphR]))
    rfl

/-- C8: every route in a successful `solve_vrp` answer that is still
marked feasible has a vehicle with its id whose declared capacity bounds
the total assigned weight; the validation pass clears the flag
otherwise. -/
theorem claim_C8 {α : Type} [LinearOrderedField α] (G : Graph α)
    (closest : α × α → ℕ) (nxsp : ℕ → ℕ → NXRes α)
    (vehicles : List (Vehicle α)) (deliveries : List (DeliveryRequest α))
    (depot_location : α × α) (algorithm : String)
    (routes : List (Route α)) (r : Route α)
    (hok : solve_vrp G closest nxsp vehicles deliveries depot_location
      algorithm = .ok routes)
    (hr : r ∈ routes) (hf : r.is_feasible = true) :
    ∃ v, vehicles.find? (fun v => v.id == r.vehicle_id) = some v ∧
      (r.deliveries.map (fun d => d.weight)).sum ≤ v.capacity := by
  rw [solve_vrp] at hok
  by_cases h1 : algorithm ≠ "nearest_neighbor" ∧ algorithm ≠ "genetic_algorithm"
  · rw [if_pos h1] at hok
    exact absurd hok (by simp)
  · rw [if_neg h1] at hok
    by_cases h2 : vehicles = [] ∨ deliveries = []
    · rw [if_pos h2] at hok
      exact absurd hok (by simp)
    · rw [if_neg h2] at hok
      simp only [] at hok
      have hval := Except.ok.inj hok
      rw [← hval] at hr
      exact validate_routes_feasible _ vehicles r hr hf

/-- C8 witness: one vehicle of capacity 10, one delivery of weight 5
resolved to node 0, nearest-neighbor solve over the two-node graph
produces the single feasible route `rQ`, and its weight fits. -/
theorem claim_C8_witness :
    ∃ v, [vQ].find? (fun v => v.id == rQ.vehicle_id) = some v ∧
      (rQ.deliveries.map (fun d => d.weight)).sum ≤ v.capacity :=
  claim_C8 parGraph (fun _ => 0) (fun _ _ => NXRes.found 0) [vQ] [dQ]
    (0, 0) "nearest_neighbor" [rQ] rQ
    (by
      norm_num [solve_vrp, map_locations_to_nodes, nearest_neighbor_solve,
        nnSolveLoop, build_route_nearest_neighbor, buildRouteLoop,
        find_nearest_delivery, validate_routes, parGraph, vQ, dQ, dQmapped,
        rQ, Graph.hasNode, ltInf, List.filter, List.erase, List.find?,
        show (1:ℕ) = 0+1 from rfl, List.cons_ne_nil, beq_self_eq_true])
    (List.mem_singleton.2 rfl) rfl

/-- C9: `calculate_allocation_cost` returns
`distance + (4 - priority) * 0.1 * distance`, with the distance looked up
in the supplied cost matrix when one exists and otherwise obtained from a
direct A* distance query on the graph. -/
theorem claim_C9 (mgr : AllocManager) (vehicle : Vehicle ℝ)
    (request : AllocationRequest) (vn cn : ℕ) (d : ℝ)
    (hv : vehicle.current_node = some vn)
    (hc : request.client.node_id = some cn) :
    (∀ cm, mgr.cost_matrix = some cm →
      get_cost_between_nodes cm.matrix cm.node_index vn cn = some d →
      calculate_allocation_cost mgr vehicle request
        = some (spec_allocation_cost d request.client.priority)) ∧
    (mgr.cost_matrix = none →
      get_shortest_distance_a_star mgr.graph vn cn = some d →
      calculate_allocation_cost mgr vehicle request
        = some (spec_allocation_cost d request.client.priority)) := by
  constructor
  · intro cm hcm hd
    rw [calculate_allocation_cost]
    simp only [hcm, hv, hc, hd, spec_allocation_cost]
  · intro hcm hd
    rw [calculate_allocation_cost]
    simp only [hcm, hv, hc, hd, spec_allocation_cost]

/-- C9 witness: the one-vehicle manager with its trivial supplied matrix,
vehicle and client both at node 0. -/
theorem claim_C9_witness :
    (∀ cm, cexAllocMgr.cost_matrix = some cm →
      get_cost_between_nodes cm.matrix cm.node_index 0 0 = some 0 →
      calculate_allocation_cost cexAllocMgr cexVehicleR cexRequest
        = some (spec_allocation_cost 0 cexRequest.client.priority)) ∧
    (cexAllocMgr.cost_matrix = none →
      get_shortest_distance_a_star cexAllocMgr.graph 0 0 = some 0 →
      calculate_allocation_cost cexAllocMgr cexVehicleR cexRequest
        = some (spec_allocation_cost 0 cexRequest.client.priority)) :=
  claim_C9 cexAllocMgr cexVehicleR cexRequest 0 0 0 rfl rfl

/-- C10 (amended): starting from a well-formed manager state, any
sequence of greedy allocations and cancellations in which each
allocation id is cancelled at most once — and only while not already
cancelled — and all requested weights are non-negative keeps every
vehicle's load within `[0, capacity]`.  Without the at-most-once proviso
the property fails (see the counterexample: `cancel_allocation` never
checks the status, so a double cancel drives the load negative). -/
theorem claim_C10 (mgr : AllocManager) (ops : List AllocOp)
    (hInv : MgrInv mgr) (hnd : (cancelIds ops).Nodup)
    (hok : ∀ i ∈ cancelIds ops, ∀ q ∈ mgr.allocations,
      q.1 = i → ¬q.2.status = "cancelled")
    (hw : ∀ r, AllocOp.alloc r ∈ ops → 0 ≤ r.delivery_request.weight) :
    (runAllocOps mgr ops).vehicles.Forall
      (fun p => 0 ≤ p.2.current_load ∧ p.2.current_load ≤ p.2.capacity) := by
  obtain ⟨_, _, _, _, h5, h6⟩ := runAllocOps_inv ops mgr hInv hnd hok hw
  rw [List.forall_iff_forall_mem]
  intro p hp
  have hcap := h6 p hp
  exact ⟨le_trans (activeSum_nonneg h5 p.1) hcap.2, hcap.1⟩

/-- C10 witness: allocating the weight-5 request to the capacity-10
vehicle and cancelling it once keeps the load inside `[0, 10]`. -/
theorem claim_C10_witness :
    (runAllocOps cexAllocMgr
        [AllocOp.alloc cexRequest, AllocOp.cancel 1]).vehicles.Forall
      (fun p => 0 ≤ p.2.current_load ∧ p.2.current_load ≤ p.2.capacity) :=
  claim_C10 cexAllocMgr [AllocOp.alloc cexRequest, AllocOp.cancel 1]
    (by
      refine ⟨by simp [cexAllocMgr], ?_, ?_, by simp [cexAllocMgr], ?_, ?_⟩
      · intro p hp
        rw [show cexAllocMgr.vehicles = [(1, cexVehicleR)] from rfl,
          List.mem_singleton] at hp
        subst hp; rfl
      · intro q hq
        exact absurd hq (List.not_mem_nil q)
      · intro q hq
        exact absurd hq (List.not_mem_nil q)
      · intro p hp
        rw [show cexAllocMgr.vehicles = [(1, cexVehicleR)] from rfl,
          List.mem_singleton] at hp
        subst hp
        exact ⟨by norm_num [cexVehicleR],
          by simp [activeSum, cexAllocMgr, cexVehicleR]⟩)
    (by simp [cancelIds])
    (by
      intro i _ q hq
      exact absurd hq (List.not_mem_nil q))
    (by
      intro r hr
      rcases List.mem_cons.1 hr with h | h
      · injection h with h2
        subst h2
        norm_num [cexRequest, cexDeliveryR]
      · rw [List.mem_singleton] at h
        exact AllocOp.noConfusion h)

/-- C10 counterexample: cancelling the same allocation twice subtracts the
weight twice — the final load is −5, outside `[0, capacity]`. -/
theorem claim_C10_cex :
    ((runAllocOps cexAllocMgr
        [.alloc cexRequest, .cancel 1, .cancel 1]).vehicles.map
      (fun p => p.2.current_load)) = [-5] ∧ ¬(0:ℝ) ≤ -5 := by
  refine ⟨?_, by norm_num⟩
  norm_num [runAllocOps, allocate_vehicle_greedy, cancel_allocation,
    find_available_vehicles, is_vehicle_available, has_time_conflict,
    minByCost, cexAllocMgr, cexVehicleR, cexRequest, cexDeliveryR,
    cexClient, emptyGraphR, List.filter, List.find?]
